import Mathlib

/-!
Verification development for the docs.rs build-and-hosting service
(rust-lang-nursery/docs.rs). The definitions below are a shallow
embedding of the storage façade (`src/storage/mod.rs`), the build-limit
loader (`src/docbuilder/limits.rs`), the manifest-metadata parser
(`src/docbuilder/metadata.rs`), the build orchestrator
(`src/docbuilder/rustwide_builder.rs`) and the database writer
(`src/db/add_package.rs`).

Bytes are modelled as `List Nat`, byte buffers as lists, machine
integers as `Nat`/`Int` (with explicit wrap-around where the source
uses `i32` accumulation).  Fallible operations return `Except`.

Parts of the repository that the storage façade calls but whose source
files are not part of the crate snapshot (the compression codec
`storage/compression.rs`, the archive index `storage/archive_index.rs`
and the backend `get` implementations) are modelled from the
specification; each such definition is marked `Modelled from the spec:`.
-/

namespace DocsRs

/-- Compression algorithm tag (`storage/compression.rs`, re-exported by
`storage/mod.rs`).  Modelled from the spec: the enumerated set has a
designated default (used by `store_one`/`store_all`/the archive index)
and must contain Bzip2 because the archive layer uses it. -/
inductive CompressionAlgorithm where
  | Zstd
  | Bzip2
deriving DecidableEq, Repr

/-- The default algorithm chosen by `CompressionAlgorithm::default()`. -/
def CompressionAlgorithm.default : CompressionAlgorithm := .Zstd

/-- Modelled from the spec: `compress(bytes, alg) → bytes`, a symmetric
lossless codec (§4.B).  The model keeps the default codec's output the
same length as its input and gives the Bzip2 stream a one-byte framing
marker, so that a compressed stream is never empty (as for real bzip2
output). -/
def compress (alg : CompressionAlgorithm) (bytes : List Nat) : List Nat :=
  match alg with
  | .Zstd => bytes
  | .Bzip2 => 66 :: bytes

/-- Modelled from the spec: the raw inflation underlying
`decompress`, inverse of `compress`. -/
def inflateRaw (alg : CompressionAlgorithm) (bytes : List Nat) : List Nat :=
  match alg with
  | .Zstd => bytes
  | .Bzip2 => bytes.tail

/-- Storage errors surfaced by the storage layer (§7:
`NotFound`, `TooLarge`, ...). -/
inductive StorageErr where
  | NotFound
  | TooLarge
  | InvalidArchiveIndex
deriving DecidableEq, Repr

/-- Modelled from the spec: `decompress(bytes, alg, max_size) → bytes`
fails with `TooLarge` if the inflated size would exceed `max_size`
(§4.B). -/
def decompress (bytes : List Nat) (alg : CompressionAlgorithm)
    (max_size : Nat) : Except StorageErr (List Nat) :=
  let out := inflateRaw alg bytes
  if out.length > max_size then .error .TooLarge else .ok out

/-- `Blob` (`storage/mod.rs`): `date_updated` is irrelevant to every
claim and is omitted from the model. -/
structure Blob where
  path : String
  mime : String
  content : List Nat
  compression : Option CompressionAlgorithm
deriving DecidableEq, Repr

/-- `FileRange` (`storage/mod.rs`): an inclusive byte range. -/
structure FileRange where
  start : Nat
  stop : Nat
deriving DecidableEq, Repr

/-- `FileRange::len`: `end - start + 1`. -/
def FileRange.len (r : FileRange) : Nat := r.stop - r.start + 1

/-- The slice of a byte list described by an inclusive range
(the relational backend uses the substring operator, the
object-storage backend an HTTP byte-range). -/
def sliceRange (content : List Nat) (r : FileRange) : List Nat :=
  (content.drop r.start).take r.len

/-- The storage state: the blob map of the shared backend plus the
local archive-index cache directory (`local_archive_cache_path`),
both keyed by path. -/
structure StorageState where
  blobs : List (String × Blob)
  cache : List (String × List Nat)
deriving Repr

/-- Look up a blob by path. -/
def StorageState.find (s : StorageState) (path : String) : Option Blob :=
  (s.blobs.find? (fun pb => pb.1 = path)).map (·.2)

/-- Upsert a blob under its path (both backends write by upsert on
`path`). -/
def insertBlob (blobs : List (String × Blob)) (b : Blob) :
    List (String × Blob) :=
  if blobs.any (fun pb => pb.1 = b.path) then
    blobs.map (fun pb => if pb.1 = b.path then (pb.1, b) else pb)
  else
    (b.path, b) :: blobs

/-- Modelled from the spec: the backend `get(path, max_size, range)`
shared by the relational and the object-storage backend.  Absent paths
fail with `NotFound`; when a range is given only that slice is
returned; content larger than `max_size` fails with the size-limit
error (the backends stream into a size-capped buffer, as exercised by
`backend_tests::test_get_too_big` in `storage/mod.rs`). -/
def backendGet (s : StorageState) (path : String) (max_size : Nat)
    (range : Option FileRange) : Except StorageErr Blob := do
  match s.find path with
  | none => .error .NotFound
  | some b =>
      let content := match range with
        | none => b.content
        | some r => sliceRange b.content r
      if content.length > max_size then .error .TooLarge
      else .ok { b with content := content }

/-- `Storage::get` (`storage/mod.rs` lines 164-174): backend get, then
transparently decompress when the blob carries a compression tag. -/
def Storage.get (s : StorageState) (path : String) (max_size : Nat) :
    Except StorageErr Blob := do
  let blob ← backendGet s path max_size none
  match blob.compression with
  | some alg => do
      let content ← decompress blob.content alg max_size
      pure { blob with content := content, compression := none }
  | none => pure blob

/-- `Storage::get_range` (`storage/mod.rs` lines 176-195): backend get
of the byte range; the stored blob's own compression tag is ignored and
the caller-supplied hint is used instead. -/
def Storage.get_range (s : StorageState) (path : String) (max_size : Nat)
    (range : FileRange) (compression : Option CompressionAlgorithm) :
    Except StorageErr Blob := do
  let blob ← backendGet s path max_size (some range)
  match compression with
  | some alg => do
      let content ← decompress blob.content alg max_size
      pure { blob with content := content, compression := none }
  | none => pure blob

/-- The characters after the last `.` of a path
(`Path::extension`), `none` when the path has no dot. -/
def afterLastDot : List Char → Option (List Char)
  | [] => none
  | c :: rest =>
      match afterLastDot rest with
      | some e => some e
      | none => if c = '.' then some rest else none

/-- MIME detection (`detect_mime` in `storage/mod.rs`).  The base guess
comes from the external `mime_guess` crate; modelled from the spec:
MIME is derived from the file extension, known text types are refined,
unknown extensions give `text/plain`. -/
def detect_mime (file_path : String) : String :=
  let ext := match afterLastDot file_path.data with
    | some e => String.mk e
    | none => ""
  match ext with
  | "md" => "text/markdown"
  | "markdown" => "text/markdown"
  | "rs" => "text/rust"
  | "css" => "text/css"
  | "toml" => "text/toml"
  | "js" => "application/javascript"
  | "json" => "application/json"
  | "html" => "text/html"
  | "svg" => "image/svg+xml"
  | _ => "text/plain"

/-- `Storage::store_one` (`storage/mod.rs` lines 389-410): compress
with the default codec, then upsert the blob; returns the chosen
algorithm. -/
def Storage.store_one (s : StorageState) (path : String)
    (content : List Nat) : StorageState × CompressionAlgorithm :=
  let alg := CompressionAlgorithm.default
  let blob : Blob :=
    { path := path
      mime := detect_mime path
      content := compress alg content
      compression := some alg }
  ({ s with blobs := insertBlob s.blobs blob }, alg)

/-! ## Archive layer (`Storage::store_all_in_archive` / `Storage::get_from_archive`)

The ZIP container and the archive index (`storage/archive_index.rs`,
absent from the crate snapshot) are modelled from the spec (§4.C):
packing adds each file with per-file Bzip2 compression and records
`(path, offset, length, per-file compression, MIME)` in the index; the
index is serialized deterministically as a length-prefixed sequence of
records, compressed with the default codec and stored at
`{archive_path}.index`, and additionally cached uncompressed on the
local disk. -/

/-- One record of the archive index: `file-path → (byte-range in the
ZIP, per-file compression tag, MIME)` (§3 "Archive index"). -/
structure IndexEntry where
  path : String
  offset : Nat
  size : Nat
  alg : CompressionAlgorithm
  mime : String
deriving DecidableEq, Repr

/-- The inclusive byte-range of an entry's compressed stream. -/
def IndexEntry.range (e : IndexEntry) : FileRange :=
  { start := e.offset, stop := e.offset + e.size - 1 }

/-- One step of the packing loop in `store_all_in_archive`: append the
file's Bzip2-compressed stream to the ZIP body and record its index
entry.  (ZIP framing bytes around the compressed streams are not
modelled; the index addresses exactly the compressed stream, which is
what `get_range` is later asked for.) -/
def packStep (acc : List Nat × List IndexEntry) (f : String × List Nat) :
    List Nat × List IndexEntry :=
  let comp := compress .Bzip2 f.2
  (acc.1 ++ comp,
   acc.2 ++ [{ path := f.1, offset := acc.1.length, size := comp.length,
               alg := .Bzip2, mime := detect_mime f.1 }])

/-- The packing loop over the directory's file list. -/
def packZip (files : List (String × List Nat)) :
    List Nat × List IndexEntry :=
  files.foldl packStep ([], [])

/-- Modelled from the spec: the numeric tag of an algorithm in the
serialized index (`u8 algorithm`). -/
def algTag : CompressionAlgorithm → Nat
  | .Zstd => 0
  | .Bzip2 => 1

/-- Inverse of `algTag`. -/
def algOfTag : Nat → Option CompressionAlgorithm
  | 0 => some .Zstd
  | 1 => some .Bzip2
  | _ => none

/-- Length-prefixed string serialization inside the index. -/
def encodeString (s : String) : List Nat :=
  s.length :: s.data.map Char.toNat

/-- Modelled from the spec: serialization of one index record
`{utf8-path, u64 offset, u64 length, u8 algorithm, utf8 mime}`. -/
def encodeEntry (e : IndexEntry) : List Nat :=
  encodeString e.path ++ e.offset :: e.size :: algTag e.alg :: encodeString e.mime

/-- Modelled from the spec: the deterministic serialization of the
whole index (`Index::save`), a length-prefixed sequence of records. -/
def encodeIndex (es : List IndexEntry) : List Nat :=
  es.length :: (es.map encodeEntry).flatten

/-- Parse one length-prefixed string, returning the remaining bytes. -/
def decodeString : List Nat → Option (String × List Nat)
  | [] => none
  | n :: rest =>
      if n ≤ rest.length then
        some (String.mk ((rest.take n).map Char.ofNat), rest.drop n)
      else none

/-- Parse one index record, returning the remaining bytes. -/
def decodeEntry (l : List Nat) : Option (IndexEntry × List Nat) := do
  let (path, r1) ← decodeString l
  match r1 with
  | off :: sz :: tag :: r2 => do
      let alg ← algOfTag tag
      let (mime, r3) ← decodeString r2
      pure ({ path := path, offset := off, size := sz, alg := alg,
              mime := mime }, r3)
  | _ => none

/-- Parse exactly `n` index records consuming all remaining bytes. -/
def decodeEntries : Nat → List Nat → Option (List IndexEntry)
  | 0, [] => some []
  | 0, _ :: _ => none
  | n + 1, l => do
      let (e, r) ← decodeEntry l
      let es ← decodeEntries n r
      pure (e :: es)

/-- Modelled from the spec: `Index::load`, the inverse of
`Index::save`; undecodable bytes give `InvalidArchiveIndex`. -/
def indexLoad (bytes : List Nat) : Except StorageErr (List IndexEntry) :=
  match bytes with
  | [] => .error .InvalidArchiveIndex
  | n :: rest =>
      match decodeEntries n rest with
      | some es => .ok es
      | none => .error .InvalidArchiveIndex

/-- `Index::find_file`: look a file path up in the index
(`PathNotFoundError` when absent). -/
def findFile (es : List IndexEntry) (path : String) :
    Except StorageErr IndexEntry :=
  match es.find? (fun e => e.path = path) with
  | some e => .ok e
  | none => .error .NotFound

/-- `std::usize::MAX` on a 64-bit builder. -/
def usizeMax : Nat := 2 ^ 64 - 1

/-- `Storage::get_index_for` (`storage/mod.rs` lines 197-218): load the
index from the local cache when present; otherwise fetch the remote
index blob (transparently decompressed by `Storage::get`), write it to
the cache and decode it.  The possibly-extended cache is returned along
with the result. -/
def Storage.get_index_for (s : StorageState) (archive_path : String) :
    StorageState × Except StorageErr (List IndexEntry) :=
  let remote_index_path := archive_path ++ ".index"
  match s.cache.find? (fun pc => pc.1 = remote_index_path) with
  | some pc => (s, indexLoad pc.2)
  | none =>
      match Storage.get s remote_index_path usizeMax with
      | .error e => (s, .error e)
      | .ok blob =>
          ({ s with cache := (remote_index_path, blob.content) :: s.cache },
           indexLoad blob.content)

/-- `Storage::get_from_archive` (`storage/mod.rs` lines 220-243): load
the index, look the file up, range-read its compressed stream out of
the archive blob passing the per-file compression tag, and wrap the
result into a `Blob` at path `{archive_path}/{path}`. -/
def Storage.get_from_archive (s : StorageState) (archive_path path : String)
    (max_size : Nat) : StorageState × Except StorageErr Blob :=
  let (s1, idx) := Storage.get_index_for s archive_path
  match idx with
  | .error e => (s1, .error e)
  | .ok es =>
      match findFile es path with
      | .error e => (s1, .error e)
      | .ok info =>
          match Storage.get_range s1 archive_path max_size info.range
              (some info.alg) with
          | .error e => (s1, .error e)
          | .ok blob =>
              (s1, .ok { path := archive_path ++ "/" ++ path,
                         mime := detect_mime path,
                         content := blob.content,
                         compression := none })

/-- `Storage::store_all_in_archive` (`storage/mod.rs` lines 245-318):
pack the directory into a ZIP body plus index, write the uncompressed
index to the local cache (replacing any previous entry), store the ZIP
blob uncompressed at `archive_path` and the index blob compressed with
the default codec at `{archive_path}.index`, and return the
`path → mime` listing together with the per-file algorithm (Bzip2).
The directory is given as its file listing (`get_file_list`):
relative path plus content bytes per file. -/
def Storage.store_all_in_archive (s : StorageState) (archive_path : String)
    (files : List (String × List Nat)) :
    StorageState × (List (String × String) × CompressionAlgorithm) :=
  let (zip_content, entries) := packZip files
  let index_content := encodeIndex entries
  let alg := CompressionAlgorithm.default
  let compressed_index_content := compress alg index_content
  let remote_index_path := archive_path ++ ".index"
  let cache1 := (remote_index_path, index_content) ::
      s.cache.filter (fun pc => ¬ pc.1 = remote_index_path)
  let blobs1 := insertBlob s.blobs
      { path := archive_path, mime := "application/zip",
        content := zip_content, compression := none }
  let blobs2 := insertBlob blobs1
      { path := remote_index_path, mime := "application/octet-stream",
        content := compressed_index_content, compression := some alg }
  ({ blobs := blobs2, cache := cache1 },
   (files.map (fun f => (f.1, detect_mime f.1)), .Bzip2))

/-! ## Build limits (`src/docbuilder/limits.rs`) -/

/-- `Limits`: the per-crate build limits.  `timeout` is in seconds
(the source stores a `Duration` built with `Duration::from_secs`). -/
structure Limits where
  memory : Nat
  targets : Nat
  timeout : Nat
  networking : Bool
  max_log_size : Nat
  upload_size : Nat
deriving DecidableEq, Repr

/-- `impl Default for Limits` (`limits.rs` lines 23-34). -/
def Limits.default : Limits :=
  { memory := 3 * 1024 * 1024 * 1024
    timeout := 15 * 60
    targets := 10
    networking := false
    max_log_size := 100 * 1024
    upload_size := 500 * 1024 * 1024 }

/-- One row of the `sandbox_overrides` table.  The columns read by
`Limits::for_crate` are `max_memory_bytes`, `timeout_seconds`,
`max_targets` and `upload_size`.  The `networking` column is modelled
from the spec (§5: "crates that require it must be explicitly
whitelisted via the per-crate overrides table"); the table's creation
is not part of the crate snapshot, and `for_crate` never reads such a
column. -/
structure SandboxOverrideRow where
  max_memory_bytes : Option Int
  timeout_seconds : Option Int
  max_targets : Option Int
  upload_size : Option Int
  networking : Option Bool
deriving DecidableEq, Repr

/-- `Limits::for_crate` (`limits.rs` lines 36-66): start from the
defaults and overlay the fields present in the crate's override row,
when one exists.  The table is modelled as an association list keyed by
`crate_name`. -/
def Limits.for_crate (rows : List (String × SandboxOverrideRow))
    (name : String) : Limits :=
  let limits := Limits.default
  match rows.find? (fun r => r.1 = name) with
  | none => limits
  | some r =>
      let row := r.2
      let limits := match row.max_memory_bytes with
        | some memory => { limits with memory := memory.toNat }
        | none => limits
      let limits := match row.timeout_seconds with
        | some timeout => { limits with timeout := timeout.toNat }
        | none => limits
      let limits := match row.max_targets with
        | some targets => { limits with targets := targets.toNat }
        | none => limits
      let limits := match row.upload_size with
        | some upload_size => { limits with upload_size := upload_size.toNat }
        | none => limits
      limits

/-- The sandbox configuration produced by
`RustwideBuilder::prepare_sandbox` (`rustwide_builder.rs` lines
102-107): cpu limit from the global config, memory limit and
networking flag from the crate's limits. -/
structure SandboxConf where
  cpu_limit : Option Nat
  memory_limit : Option Nat
  networking : Bool
deriving DecidableEq, Repr

/-- `RustwideBuilder::prepare_sandbox`. -/
def prepare_sandbox (build_cpu_limit : Option Nat) (limits : Limits) :
    SandboxConf :=
  { cpu_limit := build_cpu_limit
    memory_limit := some limits.memory
    networking := limits.networking }

/-! ## Manifest metadata (`src/docbuilder/metadata.rs`) -/

/-- A parsed TOML value (the string-to-value parsing itself is done by
the external `toml` crate; the navigation and extraction performed by
`Metadata::from_str` operates on the parsed value, modelled here). -/
inductive Toml where
  | str (s : String)
  | boolean (b : Bool)
  | int (n : Int)
  | arr (elems : List Toml)
  | table (entries : List (String × Toml))
deriving Repr

/-- `toml::Value::get` with a string key: a lookup in a table, `None`
on any other value kind. -/
def Toml.get (v : Toml) (key : String) : Option Toml :=
  match v with
  | .table entries => (entries.find? (fun e => e.1 = key)).map (·.2)
  | _ => none

/-- `toml::Value::as_table`. -/
def Toml.as_table (v : Toml) : Option (List (String × Toml)) :=
  match v with
  | .table entries => some entries
  | _ => none

/-- Table lookup (`toml::map::Map::get`). -/
def tblGet (entries : List (String × Toml)) (key : String) : Option Toml :=
  (entries.find? (fun e => e.1 = key)).map (·.2)

/-- `toml::Value::as_array`. -/
def Toml.as_array (v : Toml) : Option (List Toml) :=
  match v with
  | .arr elems => some elems
  | _ => none

/-- `toml::Value::as_str`. -/
def Toml.as_str (v : Toml) : Option String :=
  match v with
  | .str s => some s
  | _ => none

/-- `toml::Value::as_bool`. -/
def Toml.as_bool (v : Toml) : Option Bool :=
  match v with
  | .boolean b => some b
  | _ => none

/-- `f.iter().map(|v| v.as_str().map(..)).collect::<Option<Vec<_>>>()`:
all elements must be strings, otherwise `None`. -/
def collectStrings : List Toml → Option (List String)
  | [] => some []
  | v :: rest => do
      let s ← v.as_str
      let ss ← collectStrings rest
      pure (s :: ss)

/-- `Metadata` (`metadata.rs` lines 28-64). -/
structure Metadata where
  features : Option (List String)
  all_features : Bool
  no_default_features : Bool
  default_target : Option String
  targets : Option (List String)
  rustc_args : Option (List String)
  rustdoc_args : Option (List String)
deriving DecidableEq, Repr

/-- `Metadata::default` (`metadata.rs` lines 95-105). -/
def Metadata.default : Metadata :=
  { features := none
    all_features := false
    no_default_features := false
    default_target := none
    targets := none
    rustc_args := none
    rustdoc_args := none }

/-- `Metadata::from_str` (`metadata.rs` lines 108-137), applied to the
parsed manifest value: navigate to `package.metadata.docs.rs` and read
the keys.  Note the source reads the key `extra-targets`, not
`targets`. -/
def Metadata.fromToml (manifest : Toml) : Metadata :=
  let metadata := Metadata.default
  match ((((((manifest.get "package").bind Toml.as_table).bind
      (fun p => tblGet p "metadata")).bind Toml.as_table).bind
      (fun p => tblGet p "docs")).bind Toml.as_table).bind
      (fun p => (tblGet p "rs").bind Toml.as_table) with
  | none => metadata
  | some table =>
      { metadata with
        features := ((tblGet table "features").bind Toml.as_array).bind
          collectStrings
        no_default_features :=
          ((tblGet table "no-default-features").bind Toml.as_bool).getD
            metadata.no_default_features
        all_features :=
          ((tblGet table "all-features").bind Toml.as_bool).getD
            metadata.all_features
        default_target := (tblGet table "default-target").bind Toml.as_str
        targets := ((tblGet table "extra-targets").bind Toml.as_array).bind
          collectStrings
        rustc_args := ((tblGet table "rustc-args").bind Toml.as_array).bind
          collectStrings
        rustdoc_args := ((tblGet table "rustdoc-args").bind Toml.as_array).bind
          collectStrings }

/-! ## Target selection (`Metadata::targets`, `metadata.rs` lines 139-172) -/

/-- `Vec::swap_remove(i)`: replace element `i` by the last element and
pop the last.  (Only called with `i < l.length` in the source.) -/
def swapRemoveAt (l : List String) (i : Nat) : List String :=
  (l.set i (l.getLastD "")).dropLast

/-- Remove consecutive duplicates (`Vec::dedup`). -/
def dedupConsec : List String → List String
  | [] => []
  | [a] => [a]
  | a :: b :: rest =>
      if a = b then dedupConsec (b :: rest) else a :: dedupConsec (b :: rest)

/-- `all_targets.binary_search(&landing_page)` followed by
`swap_remove(index)` on a sorted, deduplicated vector: since the
vector is sorted with no duplicates, the index a binary search returns
is the unique (hence first) index of the element, so the lookup is
modelled by `indexOf`; absent elements (`Err`) leave the vector
unchanged. -/
def removeLanding (l : List String) (x : String) : List String :=
  if x ∈ l then swapRemoveAt l (l.indexOf x) else l

/-- `Metadata::targets`: produce `(landing_page, other_targets)`.
`HOST_TARGET` and `TARGETS` are process-wide constants of
`rustwide_builder.rs` taken here as parameters. -/
def Metadata.buildTargets (HOST_TARGET : String) (TARGETS : List String)
    (m : Metadata) : String × List String :=
  let all_targets : List String := m.default_target.toList
  let all_targets := match m.targets with
    | some targets => all_targets ++ targets
    | none =>
        if all_targets.isEmpty then
          all_targets ++ HOST_TARGET ::
            TARGETS.filter (fun t => ¬ t = HOST_TARGET)
        else all_targets ++ TARGETS
  match all_targets with
  | [] => (HOST_TARGET, [])
  | first :: _ =>
      let landing_page := first
      let rest := swapRemoveAt all_targets 0
      let rest := (rest.mergeSort (fun a b => a ≤ b))
      let rest := dedupConsec rest
      (landing_page, removeLanding rest landing_page)

/-! ## Documentation coverage (`RustwideBuilder::get_coverage`,
`rustwide_builder.rs` lines 441-488) -/

/-- Two's-complement wrap-around of Rust `i32` arithmetic. -/
def wrap32 (x : Int) : Int := (x + 2 ^ 31) % 2 ^ 32 - 2 ^ 31

/-- `i32` addition (`+=` on `total_items` / `documented_items`). -/
def i32add (a b : Int) : Int := wrap32 (a + b)

/-- The per-file record deserialized from one line of coverage JSON
(`struct FileCoverage { total: i32, with_docs: i32 }`). -/
structure FileCoverage where
  total : Int
  with_docs : Int
deriving DecidableEq, Repr

/-- `DocCoverage` (`rustwide_builder.rs` lines 661-667). -/
structure DocCoverage where
  total_items : Int
  documented_items : Int
deriving DecidableEq, Repr

/-- A line qualifies when it starts with `{` and ends with `}`
(`line.starts_with('{') && line.ends_with('}')`). -/
def lineQualifies (line : String) : Bool :=
  (line.data.head? = some '{') && (line.data.getLast? = some '}')

/-- The body of `process_lines` for one line: on a qualifying line that
parses as a map of per-file coverage, accumulate `total` and
`with_docs` over all files; other lines leave the accumulator
unchanged.  JSON deserialization is the external `serde_json` crate,
taken as the parameter `parse`. -/
def coverageStep (parse : String → Option (List (String × FileCoverage)))
    (c : DocCoverage) (line : String) : DocCoverage :=
  if lineQualifies line then
    match parse line with
    | none => c
    | some parsed =>
        parsed.foldl (fun c file =>
          { total_items := i32add c.total_items file.2.total
            documented_items := i32add c.documented_items file.2.with_docs })
          c
  else c

/-- `RustwideBuilder::get_coverage` restricted to its observable
output: fold the sums over the command's output lines starting from
zero, and return `None` exactly when both sums are zero. -/
def get_coverage (parse : String → Option (List (String × FileCoverage)))
    (lines : List String) : Option DocCoverage :=
  let coverage := lines.foldl (coverageStep parse)
    { total_items := 0, documented_items := 0 }
  if coverage.total_items = 0 ∧ coverage.documented_items = 0 then none
  else some coverage

/-- The per-file coverage records of all qualifying, parsing lines, in
order (the reference value the claim sums over). -/
def coverageEntries (parse : String → Option (List (String × FileCoverage)))
    (lines : List String) : List FileCoverage :=
  ((lines.filter (fun l => lineQualifies l)).filterMap parse).flatten.map (·.2)

/-! ## Readme and crate-level doc comment (`src/db/add_package.rs`) -/

/-- The size gate of `get_readme` (`add_package.rs` lines 238-244):
empty content is `None`, content longer than 51200 bytes is replaced by
the placeholder string, anything else is kept. -/
def readmeGate (readme : String) : Option String :=
  if readme.isEmpty then none
  else if readme.utf8ByteSize > 51200 then
    some ("(Readme ignored due to being too long. (" ++
      toString readme.utf8ByteSize ++ " > 51200))")
  else some readme

/-- `get_readme` (`add_package.rs` lines 227-245): `None` when the
readme file does not exist, otherwise the gated file content. -/
def get_readme (readmeFileExists : Bool) (content : String) :
    Option String :=
  if readmeFileExists then readmeGate content else none

/-- `str::trim_start_matches("//!")`: strip every leading repetition
of `//!`. -/
def stripBangs : List Char → List Char
  | '/' :: '/' :: '!' :: rest => stripBangs rest
  | l => l

/-- `str::trim_start`: drop leading whitespace. -/
def trimStartChars (l : List Char) : List Char :=
  l.dropWhile Char.isWhitespace

/-- `line.starts_with("//!")`, on the line's characters. -/
def startsBangs : List Char → Bool
  | '/' :: '/' :: '!' :: _ => true
  | _ => false

/-- The collection loop of `read_rust_doc` (`add_package.rs` lines
268-278): for every line starting with `//!`, append the stripped text
when non-empty, and a newline always. -/
def collect_rustdoc (lines : List String) : String :=
  String.mk (lines.foldl (fun rustdoc line =>
    if startsBangs line.data then
      let stripped := trimStartChars (stripBangs line.data)
      (if stripped.isEmpty then rustdoc else rustdoc ++ stripped) ++ ['\n']
    else rustdoc) [])

/-- `read_rust_doc` (`add_package.rs` lines 264-287): collect the
crate-level doc comment from the file's lines, then gate it the same
way as the readme with the library-doc placeholder. -/
def read_rust_doc (lines : List String) : Option String :=
  let rustdoc := collect_rustdoc lines
  if rustdoc.isEmpty then none
  else if rustdoc.utf8ByteSize > 51200 then
    some ("(Library doc comment ignored due to being too long. (" ++
      toString rustdoc.utf8ByteSize ++ " > 51200))")
  else some rustdoc

/-! ## Release upsert (`add_package_into_database`, `src/db/add_package.rs`)

The relational state is modelled as lists of rows; SQL `SELECT ... WHERE`
is a first-match lookup, `INSERT` appends a row with the next value of
the table's id sequence, `UPDATE` maps over the rows.  The
`UNIQUE(rid, kid)` constraint on `keyword_rels` (`db/migrate.rs` lines
121-125) makes a conflicting insert fail; `add_keywords_into_database`
discards that error (`let _ = conn.query(...)`), so a conflicting
insert leaves the table unchanged. -/

/-- The column payload of a `releases` row that
`add_package_into_database` writes identically in its INSERT and its
UPDATE branch (everything except the key `(crate_id, version)` and the
generated `id`). -/
structure ReleaseFields where
  release_time : Int
  dependencies : String
  target_name : String
  yanked : Bool
  build_status : Bool
  rustdoc_status : Bool
  test_status : Bool
  license : Option String
  repository_url : Option String
  homepage_url : Option String
  description : Option String
  description_long : Option String
  readme : Option String
  authors : List String
  keywords : List String
  have_examples : Bool
  downloads : Int
  files : Option String
  doc_targets : List String
  is_library : Bool
  doc_rustc_version : String
  documentation_url : Option String
  default_target : String
deriving DecidableEq, Repr

/-- One `releases` row. -/
structure ReleaseRow where
  id : Nat
  crate_id : Nat
  version : String
  fields : ReleaseFields
deriving DecidableEq, Repr

/-- One `crates` row (the columns the write path touches). -/
structure CrateRow where
  id : Nat
  name : String
  versions : List String
deriving DecidableEq, Repr

/-- One `keywords` row. -/
structure KeywordRow where
  id : Nat
  name : String
  slug : String
deriving DecidableEq, Repr

/-- The database state for the write path, with one id sequence per
SERIAL column. -/
structure DbState where
  crates : List CrateRow
  releases : List ReleaseRow
  keywords : List KeywordRow
  keyword_rels : List (Nat × Nat)
  crates_seq : Nat
  releases_seq : Nat
  keywords_seq : Nat
deriving Repr

/-- The package metadata consumed by the write path. -/
structure Pkg where
  name : String
  version : String
  keywords : List String
deriving DecidableEq, Repr

/-- `initialize_package_in_database` (`add_package.rs` lines 201-209):
find the crate by name, inserting it first when absent; returns its
id. -/
def initialize_package (s : DbState) (pkg : Pkg) : DbState × Nat :=
  match s.crates.find? (fun c => c.name = pkg.name) with
  | some c => (s, c.id)
  | none =>
      ({ s with
          crates := s.crates ++
            [{ id := s.crates_seq, name := pkg.name, versions := [] }]
          crates_seq := s.crates_seq + 1 },
       s.crates_seq)

/-- The releases upsert block of `add_package_into_database`
(`add_package.rs` lines 46-146): SELECT by `(crate_id, version)`; when
absent INSERT a fresh row, otherwise UPDATE the row in place; the
returned id is the fresh id resp. the id the SELECT found. -/
def upsertRelease (s : DbState) (crate_id : Nat) (version : String)
    (fields : ReleaseFields) : DbState × Nat :=
  match s.releases.find?
      (fun r => r.crate_id = crate_id ∧ r.version = version) with
  | none =>
      ({ s with
          releases := s.releases ++
            [{ id := s.releases_seq, crate_id := crate_id,
               version := version, fields := fields }]
          releases_seq := s.releases_seq + 1 },
       s.releases_seq)
  | some row =>
      ({ s with
          releases := s.releases.map (fun r =>
            if r.crate_id = crate_id ∧ r.version = version then
              { r with fields := fields }
            else r) },
       row.id)

/-- The body of `add_keywords_into_database` for one keyword
(`add_package.rs` lines 364-384): find-or-insert the keyword by slug,
then insert the `(rid, kid)` relation; the insert's error under the
`UNIQUE(rid, kid)` constraint is discarded, leaving the table
unchanged on conflict.  `slugify` is the external `slug` crate, taken
as a parameter. -/
def addKeywordStep (slugify : String → String) (release_id : Nat)
    (s : DbState) (keyword : String) : DbState :=
  let slug := slugify keyword
  let (s, keyword_id) : DbState × Nat :=
    match s.keywords.find? (fun k => k.slug = slug) with
    | some k => (s, k.id)
    | none =>
        ({ s with
            keywords := s.keywords ++
              [{ id := s.keywords_seq, name := keyword, slug := slug }]
            keywords_seq := s.keywords_seq + 1 },
         s.keywords_seq)
  if (release_id, keyword_id) ∈ s.keyword_rels then s
  else { s with keyword_rels := s.keyword_rels ++ [(release_id, keyword_id)] }

/-- `add_keywords_into_database`: the loop over the package's
keywords. -/
def add_keywords (slugify : String → String) (s : DbState) (pkg : Pkg)
    (release_id : Nat) : DbState :=
  pkg.keywords.foldl (addKeywordStep slugify release_id) s

/-- The trailing "Update versions" block of `add_package_into_database`
(`add_package.rs` lines 154-175): append the version to the crate
row's `versions` array when not already present.  (The source compares
`semver`-parsed versions; equal version strings parse equal, modelled
as string equality.) -/
def updateCrateVersions (s : DbState) (crate_id : Nat) (version : String) :
    DbState :=
  { s with
      crates := s.crates.map (fun c =>
        if c.id = crate_id then
          { c with versions :=
              if version ∈ c.versions then c.versions
              else c.versions ++ [version] }
        else c) }

/-- `add_package_into_database` (`add_package.rs` lines 28-178)
restricted to the tables the claim is about: resolve the crate, upsert
the release row, add the keywords and their relations, update the
crate's version list, and return the release id.  (The authors and
owners tables are disjoint state written by the same function and are
not modelled.) -/
def add_package (slugify : String → String) (s : DbState) (pkg : Pkg)
    (fields : ReleaseFields) : DbState × Nat :=
  let (s, crate_id) := initialize_package s pkg
  let (s, release_id) := upsertRelease s crate_id pkg.version fields
  let s := add_keywords slugify s pkg release_id
  let s := updateCrateVersions s crate_id pkg.version
  (s, release_id)

/-- Number of `releases` rows for one `(crate_id, version)` key. -/
def countReleases (s : DbState) (crate_id : Nat) (version : String) : Nat :=
  (s.releases.filter
    (fun r => r.crate_id = crate_id ∧ r.version = version)).length

/-- Whether a keyword's row exists (keyed by slug) and its relation to
the release `rid` is present. -/
def kwReady (slugify : String → String) (rid : Nat) (s : DbState)
    (kw : String) : Bool :=
  match s.keywords.find? (fun k => k.slug = slugify kw) with
  | some k => decide ((rid, k.id) ∈ s.keyword_rels)
  | none => false

/-- The post-state invariant of a first successful
`add_package_into_database` run for `pkg`, phrased executably: the
crate row exists, exactly one release row exists for it, and every
keyword of the package has its row and its `(rid, kid)` relation. -/
def upsertDone (slugify : String → String) (s : DbState) (pkg : Pkg) :
    Bool :=
  match s.crates.find? (fun c => c.name = pkg.name) with
  | none => false
  | some c =>
      match s.releases.find?
          (fun r => r.crate_id = c.id ∧ r.version = pkg.version) with
      | none => false
      | some row =>
          countReleases s c.id pkg.version = 1 &&
          pkg.keywords.all (kwReady slugify row.id s)

/-! ## Build orchestrator (`RustwideBuilder::build_package`,
`rustwide_builder.rs` lines 278-416)

The orchestration is modelled as a pure function from an environment
(the outcomes of the sandboxed builds and the filesystem checks) to
the ordered trace of its persistent effects plus its return value.
Steps that can only fail for infrastructure reasons (workspace I/O,
database connectivity) are modelled as total; the build outcome itself
is the `successful` flag of `BuildResult`, exactly as in the source. -/

/-- `BuildResult` (`rustwide_builder.rs` lines 669-675). -/
structure BuildResult where
  rustc_version : String
  docsrs_version : String
  build_log : String
  successful : Bool
  doc_coverage : Option DocCoverage
deriving DecidableEq, Repr

/-- The environment facts about one extra target: the outcome of
`execute_build` for it and whether `target/{t}/doc` exists afterwards
(`build_target`, lines 418-439). -/
structure ExtraTargetOutcome where
  target : String
  buildResult : BuildResult
  docDirExists : Bool
deriving DecidableEq, Repr

/-- The environment of one `build_package` invocation. -/
structure BuildEnv where
  name : String
  version : String
  shouldBuild : Bool
  blacklisted : Bool
  limits : Limits
  defaultTarget : String
  otherTargets : List ExtraTargetOutcome
  defaultResult : BuildResult
  libraryName : Option String
  defaultDocDirExists : Bool
deriving Repr

/-- One persistent effect of `build_package`, in execution order. -/
inductive BuildEvent where
  | uploadedDocs (pathRoot : String)
  | uploadedSources (pathRoot : String)
  | upsertedRelease (name version : String) (build_status : Bool)
      (doc_targets : List String)
  | addedDocCoverage (cov : DocCoverage)
  | appendedBuildRow (build_status : Bool) (output : String)
deriving DecidableEq, Repr

/-- `build_target` (lines 418-439) for one extra target: it is pushed
onto `successful_targets` only when its build succeeded and its doc
directory exists; a failing extra target produces no effect and no
error. -/
def extraTargetSuccessful (t : ExtraTargetOutcome) : Bool :=
  t.buildResult.successful && t.docDirExists

/-- `build_package`: the trace of persistent effects and the returned
`Ok` value.  Mirrors the source's control flow: the early returns of
`should_build` and the blacklist produce no effects; `has_docs` guards
the documentation upload and the extra-target builds; sources are
stored even when the build failed; the release row, optional coverage
row and build row are always written. -/
def build_package (env : BuildEnv) : List BuildEvent × Bool :=
  if ¬ env.shouldBuild then ([], false)
  else if env.blacklisted then ([], false)
  else
    let res := env.defaultResult
    let has_docs := res.successful &&
      env.libraryName.isSome && env.defaultDocDirExists
    let successful_targets :=
      if has_docs then
        env.defaultTarget ::
          ((env.otherTargets.take env.limits.targets).filter
            extraTargetSuccessful).map (·.target)
      else []
    let docEvents :=
      if has_docs then
        [BuildEvent.uploadedDocs
          ("rustdoc/" ++ env.name ++ "/" ++ env.version)]
      else []
    let coverageEvents := match res.doc_coverage with
      | some cov => [BuildEvent.addedDocCoverage cov]
      | none => []
    (docEvents ++
      [BuildEvent.uploadedSources
        ("sources/" ++ env.name ++ "/" ++ env.version),
       BuildEvent.upsertedRelease env.name env.version res.successful
         successful_targets] ++
      coverageEvents ++
      [BuildEvent.appendedBuildRow res.successful res.build_log],
     res.successful)

/-! ## Concrete example inputs used to evaluate the development -/

/-- An empty storage state. -/
def exStorage : StorageState := { blobs := [], cache := [] }

/-- The file listing of a small source directory (as in
`backend_tests::test_store_all_in_archive`). -/
def exFiles : List (String × List Nat) :=
  [("Cargo.toml", [100, 97, 116, 97]), ("src/main.rs", [1, 2, 3])]

/-- A manifest whose `[package.metadata.docs.rs]` table sets
`extra-targets`. -/
def exManifestExtraTargets : Toml :=
  .table [("package", .table [("metadata", .table [("docs", .table
    [("rs", .table [("extra-targets",
      .arr [.str "x86_64-apple-darwin", .str "x86_64-pc-windows-msvc"])])])])])]

/-- A manifest whose `[package.metadata.docs.rs]` table sets the
`targets` key documented in `metadata.rs`. -/
def exManifestTargetsKey : Toml :=
  .table [("package", .table [("metadata", .table [("docs", .table
    [("rs", .table [("targets",
      .arr [.str "x86_64-apple-darwin", .str "x86_64-pc-windows-msvc"])])])])])]

/-- An override row that enables networking (and nothing else). -/
def exNetworkingRow : SandboxOverrideRow :=
  { max_memory_bytes := none, timeout_seconds := none, max_targets := none,
    upload_size := none, networking := some true }

/-- A failed build outcome. -/
def exFailedResult : BuildResult :=
  { rustc_version := "rustc 1.54.0-nightly"
    docsrs_version := "docsrs 0.6.0"
    build_log := "error[E0308]: mismatched types"
    successful := false
    doc_coverage := none }

/-- An orchestrator environment in which the default-target build
fails. -/
def exBuildEnv : BuildEnv :=
  { name := "failing-crate"
    version := "0.1.0"
    shouldBuild := true
    blacklisted := false
    limits := Limits.default
    defaultTarget := "x86_64-unknown-linux-gnu"
    otherTargets := [{ target := "i686-pc-windows-msvc",
                       buildResult := exFailedResult, docDirExists := false }]
    defaultResult := exFailedResult
    libraryName := some "failing_crate"
    defaultDocDirExists := false }

/-- A package with keywords. -/
def exPkg : Pkg :=
  { name := "regex", version := "1.4.2", keywords := ["regex", "text"] }

/-- A release payload for a first build. -/
def exFields : ReleaseFields :=
  { release_time := 1600000000
    dependencies := "[]"
    target_name := "regex"
    yanked := false
    build_status := true
    rustdoc_status := true
    test_status := false
    license := some "MIT"
    repository_url := none
    homepage_url := none
    description := some "regular expressions"
    description_long := none
    readme := none
    authors := ["The Rust Project"]
    keywords := ["regex", "text"]
    have_examples := false
    downloads := 100
    files := none
    doc_targets := ["x86_64-unknown-linux-gnu"]
    is_library := true
    doc_rustc_version := "rustc 1.54.0-nightly"
    documentation_url := none
    default_target := "x86_64-unknown-linux-gnu" }

/-- The payload of a re-build of the same release (now yanked). -/
def exFields2 : ReleaseFields :=
  { exFields with yanked := true, downloads := 150 }

/-- An empty database (sequences start at 1, as SERIAL does). -/
def exDb : DbState :=
  { crates := [], releases := [], keywords := [], keyword_rels := []
    crates_seq := 1, releases_seq := 1, keywords_seq := 1 }

/-- A readme longer than 51200 bytes. -/
def bigReadme : String := String.mk (List.replicate 51201 'a')

/-- A crate-level doc comment line whose collected text exceeds 51200
bytes. -/
def exDocLine : String :=
  String.mk ('/' :: '/' :: '!' :: List.replicate 51300 'a')

/-! ## Helper lemmas -/

theorem decompress_compress (alg : CompressionAlgorithm) (b : List Nat)
    (max_size : Nat) (h : b.length ≤ max_size) :
    decompress (compress alg b) alg max_size = .ok b := by
  cases alg <;> simp [decompress, compress, inflateRaw, Nat.not_lt.mpr h]

theorem find_map_replace (blobs : List (String × Blob)) (b : Blob)
    (h : blobs.any (fun pb => pb.1 = b.path) = true) :
    (blobs.map (fun pb => if pb.1 = b.path then (pb.1, b) else pb)).find?
      (fun pb => pb.1 = b.path) = some (b.path, b) := by
  induction blobs with
  | nil => simp at h
  | cons pb rest ih =>
      by_cases hp : pb.1 = b.path
      · rw [List.map_cons, if_pos hp,
          List.find?_cons_of_pos _ (by simpa using hp), hp]
      · rw [List.map_cons, if_neg hp,
          List.find?_cons_of_neg _ (by simpa using hp)]
        simp only [List.any_cons, decide_eq_true_eq, Bool.or_eq_true,
          List.any_eq_true] at h
        rcases h with h | h
        · exact absurd h hp
        · exact ih (by simpa [List.any_eq_true] using h)

theorem find_map_replace_other (blobs : List (String × Blob)) (b : Blob)
    (p : String) (hne : ¬ p = b.path) :
    (blobs.map (fun pb => if pb.1 = b.path then (pb.1, b) else pb)).find?
      (fun pb => pb.1 = p) = blobs.find? (fun pb => pb.1 = p) := by
  induction blobs with
  | nil => simp
  | cons pb rest ih =>
      by_cases hp : pb.1 = b.path
      · have hkey : ¬ pb.1 = p := by
          rw [hp]; exact fun hc => hne hc.symm
        rw [List.map_cons, if_pos hp,
          List.find?_cons_of_neg _ (by simpa [hp] using hkey),
          List.find?_cons_of_neg _ (by simpa using hkey)]
        exact ih
      · by_cases hq : pb.1 = p
        · rw [List.map_cons, if_neg hp,
            List.find?_cons_of_pos _ (by simpa using hq),
            List.find?_cons_of_pos _ (by simpa using hq)]
        · rw [List.map_cons, if_neg hp,
            List.find?_cons_of_neg _ (by simpa using hq),
            List.find?_cons_of_neg _ (by simpa using hq)]
          exact ih

theorem find_insertBlob_self (blobs : List (String × Blob)) (b : Blob) :
    (insertBlob blobs b).find? (fun pb => pb.1 = b.path) = some (b.path, b) := by
  unfold insertBlob
  by_cases h : blobs.any (fun pb => pb.1 = b.path)
  · rw [if_pos h]
    exact find_map_replace blobs b h
  · rw [if_neg h, List.find?_cons_of_pos _ (by simp)]

theorem find_insertBlob_other (blobs : List (String × Blob)) (b : Blob)
    (p : String) (hne : ¬ p = b.path) :
    (insertBlob blobs b).find? (fun pb => pb.1 = p) =
      blobs.find? (fun pb => pb.1 = p) := by
  unfold insertBlob
  by_cases h : blobs.any (fun pb => pb.1 = b.path)
  · rw [if_pos h]
    exact find_map_replace_other blobs b p hne
  · rw [if_neg h,
      List.find?_cons_of_neg _ (by simpa using fun hc => hne hc.symm)]

/-! ## C2: per-crate networking whitelist -/

/-- C2 (counterexample): the claim "for some crate with a
networking-enabling override row, the loaded limits have networking
on" is false: `Limits::for_crate` never reads a networking column, so
even with an override row carrying `networking = true` the loaded
limits have networking off. -/
theorem networking_override_ignored_cex :
    ¬ (Limits.for_crate [("netcrate", exNetworkingRow)] "netcrate").networking
        = true := by
  decide

/-- C2 (amended): the limits loaded by `Limits::for_crate` always have
networking disabled — the override row can change memory, timeout,
targets and upload size but no override enables networking — and the
sandbox built by `prepare_sandbox` from those limits has networking
disabled. -/
theorem for_crate_networking_always_off
    (rows : List (String × SandboxOverrideRow)) (name : String)
    (build_cpu_limit : Option Nat) :
    (Limits.for_crate rows name).networking = false ∧
    (prepare_sandbox build_cpu_limit (Limits.for_crate rows name)).networking
      = false := by
  have h : (Limits.for_crate rows name).networking = false := by
    unfold Limits.for_crate
    cases rows.find? (fun r => r.1 = name) with
    | none => rfl
    | some r =>
        obtain ⟨n, mm, ts, mt, us, nw⟩ := r
        cases mm <;> cases ts <;> cases mt <;> cases us <;> rfl
  exact ⟨h, by simp [prepare_sandbox, h]⟩

/-! ## C3: manifest key for extra targets -/

theorem collectStrings_map_str (strs : List String) :
    collectStrings (strs.map Toml.str) = some strs := by
  induction strs with
  | nil => rfl
  | cons s rest ih => simp [collectStrings, Toml.as_str, ih]

/-- C3 (counterexample): the claim is false for a manifest whose
`[package.metadata.docs.rs]` table sets `targets` to a list of
strings: `Metadata::from_str` reads the key `extra-targets`
(`metadata.rs` line 128), so the parsed metadata's `targets` field is
`None`, not `Some` of the list. -/
theorem targets_key_ignored_cex :
    (Metadata.fromToml exManifestTargetsKey).targets = none ∧
    ¬ (Metadata.fromToml exManifestTargetsKey).targets =
        some ["x86_64-apple-darwin", "x86_64-pc-windows-msvc"] := by
  constructor <;> decide

/-- C3 (amended): for every manifest containing a
`[package.metadata.docs.rs]` table, the parsed Metadata's targets
field is `Some` of exactly the list of strings under the
`extra-targets` key when that key is set to such a list, and `None`
when that key is absent (in particular a `targets` key is ignored). -/
theorem fromToml_extra_targets (manifest : Toml)
    (rs : List (String × Toml)) (strs : List String)
    (hnav : ((((((manifest.get "package").bind Toml.as_table).bind
        (fun p => tblGet p "metadata")).bind Toml.as_table).bind
        (fun p => tblGet p "docs")).bind Toml.as_table).bind
        (fun p => (tblGet p "rs").bind Toml.as_table) = some rs) :
    (tblGet rs "extra-targets" = some (.arr (strs.map .str)) →
      (Metadata.fromToml manifest).targets = some strs) ∧
    (tblGet rs "extra-targets" = none →
      (Metadata.fromToml manifest).targets = none) := by
  constructor <;> intro hkey <;>
    · unfold Metadata.fromToml
      rw [hnav]
      simp [hkey, Toml.as_array, collectStrings_map_str]

/-- C3 (witness). -/
theorem fromToml_extra_targets_witness :
    (Metadata.fromToml exManifestExtraTargets).targets =
      some ["x86_64-apple-darwin", "x86_64-pc-windows-msvc"] := by
  exact (fromToml_extra_targets exManifestExtraTargets
    [("extra-targets",
      .arr [.str "x86_64-apple-darwin", .str "x86_64-pc-windows-msvc"])]
    ["x86_64-apple-darwin", "x86_64-pc-windows-msvc"] rfl).1 rfl

/-! ## C4: size-capped reads -/

/-- C4: reading a blob stored at `p` via `store_one` with `max_size`
strictly smaller than the decompressed length of its content fails
with the size-limit error, and with `max_size` at least the
decompressed length returns the full decompressed content. -/
theorem get_size_capped (s : StorageState) (p : String) (c : List Nat)
    (max_size : Nat) :
    (max_size < c.length →
      Storage.get (Storage.store_one s p c).1 p max_size =
        .error .TooLarge) ∧
    (c.length ≤ max_size →
      Storage.get (Storage.store_one s p c).1 p max_size =
        .ok { path := p, mime := detect_mime p, content := c,
              compression := none }) := by
  have hfind : StorageState.find (Storage.store_one s p c).1 p =
      some { path := p, mime := detect_mime p, content := c,
             compression := some .Zstd } := by
    have := find_insertBlob_self s.blobs
      { path := p, mime := detect_mime p, content := c,
        compression := some .Zstd }
    simp only [Storage.store_one, StorageState.find, compress,
      CompressionAlgorithm.default]
    rw [this]
    rfl
  constructor <;> intro h
  · have hbg : backendGet (Storage.store_one s p c).1 p max_size none =
        .error .TooLarge := by
      simp [backendGet, hfind, h]
    simp [Storage.get, hbg, Bind.bind, Except.bind]
  · have hbg : backendGet (Storage.store_one s p c).1 p max_size none =
        .ok { path := p, mime := detect_mime p, content := c,
              compression := some .Zstd } := by
      simp [backendGet, hfind, Nat.not_lt.mpr h]
    simp [Storage.get, hbg, Bind.bind, Except.bind, decompress, inflateRaw,
      Nat.not_lt.mpr h, Functor.map, Except.map, Pure.pure, Except.pure]

/-- C4 (witness). -/
theorem get_size_capped_witness :
    (1 < 2 ∧
      Storage.get (Storage.store_one exStorage "a.bin" [7, 7]).1 "a.bin" 1 =
        .error .TooLarge) ∧
    (2 ≤ 2 ∧
      Storage.get (Storage.store_one exStorage "a.bin" [7, 7]).1 "a.bin" 2 =
        .ok { path := "a.bin", mime := detect_mime "a.bin", content := [7, 7],
              compression := none }) :=
  ⟨⟨by decide, (get_size_capped exStorage "a.bin" [7, 7] 1).1 (by decide)⟩,
   ⟨by decide, (get_size_capped exStorage "a.bin" [7, 7] 2).2 (by decide)⟩⟩

/-! ## C9: transparent decompression at the read interface -/

/-- C9: every `Blob` returned by `Storage::get`, by `Storage::get_range`
with a compression hint, or by `Storage::get_from_archive` has
`compression = None`. -/
theorem read_transparent_decompression (s : StorageState)
    (p ap f : String) (max_size : Nat) (r : FileRange)
    (alg : CompressionAlgorithm) :
    (∀ b, Storage.get s p max_size = .ok b → b.compression = none) ∧
    (∀ b, Storage.get_range s p max_size r (some alg) = .ok b →
      b.compression = none) ∧
    (∀ b t, Storage.get_from_archive s ap f max_size = (t, .ok b) →
      b.compression = none) := by
  refine ⟨?_, ?_, ?_⟩
  · intro b h
    simp only [Storage.get, Bind.bind, Except.bind] at h
    cases hbg : backendGet s p max_size none with
    | error e => rw [hbg] at h; cases h
    | ok blob =>
        rw [hbg] at h
        obtain ⟨bp, bm, bc, bcomp⟩ := blob
        cases bcomp with
        | none =>
            simp only [Pure.pure, Except.pure, Except.ok.injEq] at h
            rw [← h]
        | some a =>
            simp only [Functor.map, Except.map] at h
            cases hd : decompress bc a max_size with
            | error e => rw [hd] at h; cases h
            | ok d =>
                rw [hd] at h
                simp only [Pure.pure, Except.pure, Except.ok.injEq] at h
                rw [← h]
  · intro b h
    simp only [Storage.get_range, Bind.bind, Except.bind] at h
    cases hbg : backendGet s p max_size (some r) with
    | error e => rw [hbg] at h; cases h
    | ok blob =>
        rw [hbg] at h
        simp only [Functor.map, Except.map] at h
        cases hd : decompress blob.content alg max_size with
        | error e => rw [hd] at h; cases h
        | ok d =>
            rw [hd] at h
            simp only [Pure.pure, Except.pure, Except.ok.injEq] at h
            rw [← h]
  · intro b t h
    simp only [Storage.get_from_archive] at h
    split at h
    · simp at h
    · split at h
      · simp at h
      · split at h
        · simp at h
        · rw [Prod.mk.injEq] at h
          obtain ⟨-, h2⟩ := h
          simp only [Except.ok.injEq] at h2
          rw [← h2]

/-- C9 (witness). -/
theorem read_transparent_decompression_witness :
    (Storage.get (Storage.store_one exStorage "w.txt" [3]).1 "w.txt" 9 =
      .ok { path := "w.txt", mime := "text/plain", content := [3],
            compression := none }) ∧
    ({ path := "w.txt", mime := "text/plain", content := [3],
       compression := none } : Blob).compression = none :=
  ⟨by rfl,
   (read_transparent_decompression (Storage.store_one exStorage "w.txt" [3]).1
      "w.txt" "a" "b" 9 { start := 0, stop := 0 } .Zstd).1 _ (by rfl)⟩

/-! ## C10: readme and doc-comment size cap -/

theorem utf8Len_replicate (n : Nat) (c : Char) :
    String.utf8Len (List.replicate n c) = n * c.utf8Size := by
  induction n with
  | zero => simp
  | succ m ih =>
      rw [List.replicate_succ, String.utf8Len_cons, ih]
      ring

/-- C10: a readme that exists and exceeds 51200 bytes is recorded as
the fixed placeholder string carrying its length; an existing empty
readme is recorded as `None`; and likewise for the collected
crate-level doc comment with the library-doc placeholder. -/
theorem readme_and_rustdoc_size_cap (content : String)
    (lines : List String) :
    (¬ content = "" → 51200 < content.utf8ByteSize →
      get_readme true content =
        some ("(Readme ignored due to being too long. (" ++
          toString content.utf8ByteSize ++ " > 51200))")) ∧
    get_readme true "" = none ∧
    (¬ collect_rustdoc lines = "" →
      51200 < (collect_rustdoc lines).utf8ByteSize →
      read_rust_doc lines =
        some ("(Library doc comment ignored due to being too long. (" ++
          toString (collect_rustdoc lines).utf8ByteSize ++ " > 51200))")) ∧
    (collect_rustdoc lines = "" → read_rust_doc lines = none) := by
  refine ⟨?_, by decide, ?_, ?_⟩
  · intro hne hbig
    have hemp : content.isEmpty = false := by
      cases hval : content.isEmpty
      · rfl
      · exact absurd ((String.isEmpty_iff content).mp hval) hne
    simp [get_readme, readmeGate, hemp, hbig]
  · intro hne hbig
    have hemp : (collect_rustdoc lines).isEmpty = false := by
      cases hval : (collect_rustdoc lines).isEmpty
      · rfl
      · exact absurd ((String.isEmpty_iff _).mp hval) hne
    simp [read_rust_doc, hemp, hbig]
  · intro hz
    unfold read_rust_doc
    rw [hz]
    rfl

theorem collect_rustdoc_exDocLine :
    collect_rustdoc [exDocLine] =
      String.mk (List.replicate 51300 'a' ++ ['\n']) := rfl

theorem collect_rustdoc_exDocLine_size :
    (collect_rustdoc [exDocLine]).utf8ByteSize = 51301 := by
  rw [collect_rustdoc_exDocLine, String.utf8ByteSize_mk,
    String.utf8Len_append, utf8Len_replicate]
  decide

/-- C10 (witness). -/
theorem readme_and_rustdoc_size_cap_witness :
    (get_readme true bigReadme =
      some ("(Readme ignored due to being too long. (" ++
        toString bigReadme.utf8ByteSize ++ " > 51200))")) ∧
    get_readme true "" = none ∧
    (read_rust_doc [exDocLine] =
      some ("(Library doc comment ignored due to being too long. (" ++
        toString (collect_rustdoc [exDocLine]).utf8ByteSize ++ " > 51200))")) := by
  have hsize : bigReadme.utf8ByteSize = 51201 := by
    show (String.mk (List.replicate 51201 'a')).utf8ByteSize = 51201
    rw [String.utf8ByteSize_mk, utf8Len_replicate]
    decide
  have hne : ¬ bigReadme = "" := by
    intro hc
    rw [hc] at hsize
    exact absurd hsize (by decide)
  have hne2 : ¬ collect_rustdoc [exDocLine] = "" := by
    intro hc
    have hs := collect_rustdoc_exDocLine_size
    rw [hc] at hs
    exact absurd hs (by decide)
  exact ⟨(readme_and_rustdoc_size_cap bigReadme []).1 hne (by rw [hsize]; decide),
    (readme_and_rustdoc_size_cap "" []).2.1,
    (readme_and_rustdoc_size_cap "" [exDocLine]).2.2.1 hne2
      (by rw [collect_rustdoc_exDocLine_size]; decide)⟩

/-! ## C8: coverage extraction -/

theorem wrap32_wrap32_add (a b : Int) :
    wrap32 (wrap32 a + b) = wrap32 (a + b) := by
  unfold wrap32
  omega

theorem i32add_wrap32 (a b : Int) : i32add (wrap32 a) b = wrap32 (a + b) := by
  unfold i32add
  exact wrap32_wrap32_add a b

theorem coverage_fold_files (files : List (String × FileCoverage))
    (a b : Int) :
    files.foldl (fun c file =>
      { total_items := i32add c.total_items file.2.total,
        documented_items := i32add c.documented_items file.2.with_docs })
      ({ total_items := wrap32 a, documented_items := wrap32 b } :
        DocCoverage) =
    { total_items := wrap32 (a + ((files.map (fun f => f.2.total)).sum)),
      documented_items :=
        wrap32 (b + ((files.map (fun f => f.2.with_docs)).sum)) } := by
  induction files generalizing a b with
  | nil => simp
  | cons f rest ih =>
      simp only [List.foldl_cons, List.map_cons, List.sum_cons,
        i32add_wrap32]
      rw [ih]
      congr 1 <;> ring_nf

theorem coverageEntries_cons (parse : String →
    Option (List (String × FileCoverage))) (l : String)
    (rest : List String) :
    coverageEntries parse (l :: rest) =
      (if lineQualifies l then
        (match parse l with
          | some parsed => parsed.map (·.2)
          | none => [])
       else []) ++ coverageEntries parse rest := by
  unfold coverageEntries
  by_cases hq : lineQualifies l
  · rw [List.filter_cons_of_pos (by simpa using hq), if_pos hq]
    cases hp : parse l with
    | none => simp [List.filterMap_cons, hp]
    | some parsed => simp [List.filterMap_cons, hp]
  · rw [List.filter_cons_of_neg (by simpa using hq), if_neg hq]
    simp

theorem coverage_fold_lines (parse : String →
    Option (List (String × FileCoverage))) (lines : List String)
    (a b : Int) :
    lines.foldl (coverageStep parse)
      ({ total_items := wrap32 a, documented_items := wrap32 b } :
        DocCoverage) =
    { total_items :=
        wrap32 (a + ((coverageEntries parse lines).map (·.total)).sum),
      documented_items :=
        wrap32 (b + ((coverageEntries parse lines).map (·.with_docs)).sum) }
    := by
  induction lines generalizing a b with
  | nil => simp [coverageEntries]
  | cons l rest ih =>
      rw [List.foldl_cons, coverageEntries_cons]
      by_cases hq : lineQualifies l
      · cases hp : parse l with
        | none =>
            rw [show coverageStep parse
                { total_items := wrap32 a, documented_items := wrap32 b } l =
                { total_items := wrap32 a, documented_items := wrap32 b } from
              by unfold coverageStep; rw [if_pos hq, hp]]
            rw [ih, if_pos hq]
            simp
        | some parsed =>
            rw [show coverageStep parse
                { total_items := wrap32 a, documented_items := wrap32 b } l =
                parsed.foldl (fun c file =>
                  { total_items := i32add c.total_items file.2.total,
                    documented_items :=
                      i32add c.documented_items file.2.with_docs })
                  { total_items := wrap32 a, documented_items := wrap32 b }
              from by unfold coverageStep; rw [if_pos hq, hp]]
            rw [coverage_fold_files, ih, if_pos hq]
            simp only [List.map_append, List.sum_append, List.map_map,
              Function.comp_def]
            congr 1 <;> · congr 1; ring
      · rw [show coverageStep parse
            { total_items := wrap32 a, documented_items := wrap32 b } l =
            { total_items := wrap32 a, documented_items := wrap32 b } from
          by unfold coverageStep; rw [if_neg hq]]
        rw [ih, if_neg hq]
        simp

/-- C8: the computed coverage is exactly the (i32, wrap-around) sums of
the `total` and `with_docs` fields over the per-file entries of every
line that starts with `{`, ends with `}` and parses as a map of file
coverage — non-parsing lines are ignored — and the result is `None` if
and only if both sums are zero. -/
theorem get_coverage_characterization (parse : String →
    Option (List (String × FileCoverage))) (lines : List String) :
    get_coverage parse lines =
      (if wrap32 (((coverageEntries parse lines).map (·.total)).sum) = 0 ∧
          wrap32 (((coverageEntries parse lines).map (·.with_docs)).sum) = 0
       then none
       else some
        { total_items :=
            wrap32 (((coverageEntries parse lines).map (·.total)).sum),
          documented_items :=
            wrap32 (((coverageEntries parse lines).map (·.with_docs)).sum) })
    := by
  unfold get_coverage
  rw [show ({ total_items := 0, documented_items := 0 } : DocCoverage) =
      { total_items := wrap32 0, documented_items := wrap32 0 } from by
    unfold wrap32; norm_num]
  rw [coverage_fold_lines]
  simp

/-! ## C6: build failure isolation -/

/-- C6: in a per-crate build in which the default-target build fails
(or any extra-target build fails), the orchestrator still uploads the
crate source tree under `sources/{name}/{version}`, still upserts the
releases row, still appends a builds row recording the default build's
status (`successful = false` when the default build failed) with the
captured log, and `build_package` returns `Ok` with the default
build's status rather than an error. -/
theorem build_package_failure_isolation (env : BuildEnv)
    (hs : env.shouldBuild = true) (hb : env.blacklisted = false)
    (hfail : env.defaultResult.successful = false ∨
      ∃ t ∈ env.otherTargets, extraTargetSuccessful t = false) :
    BuildEvent.uploadedSources ("sources/" ++ env.name ++ "/" ++ env.version)
      ∈ (build_package env).1 ∧
    (∃ dts, BuildEvent.upsertedRelease env.name env.version
      env.defaultResult.successful dts ∈ (build_package env).1) ∧
    BuildEvent.appendedBuildRow env.defaultResult.successful
      env.defaultResult.build_log ∈ (build_package env).1 ∧
    (build_package env).2 = env.defaultResult.successful ∧
    (env.defaultResult.successful = false →
      BuildEvent.appendedBuildRow false env.defaultResult.build_log
        ∈ (build_package env).1) := by
  unfold build_package
  rw [hs, hb]
  simp
  intro hsf
  rw [hsf]
  simp

/-- C6 (witness). -/
theorem build_package_failure_isolation_witness :
    (exBuildEnv.shouldBuild = true ∧ exBuildEnv.blacklisted = false ∧
      exBuildEnv.defaultResult.successful = false) ∧
    BuildEvent.uploadedSources "sources/failing-crate/0.1.0"
      ∈ (build_package exBuildEnv).1 ∧
    BuildEvent.appendedBuildRow false "error[E0308]: mismatched types"
      ∈ (build_package exBuildEnv).1 ∧
    (build_package exBuildEnv).2 = false := by
  have h := build_package_failure_isolation exBuildEnv rfl rfl (.inl rfl)
  exact ⟨⟨rfl, rfl, rfl⟩, h.1, h.2.2.2.2 rfl, h.2.2.2.1⟩

/-! ## C5: target selection -/

theorem swapRemoveAt_perm_eraseIdx (l : List String) (i : Nat)
    (hi : i < l.length) : (swapRemoveAt l i).Perm (l.eraseIdx i) := by
  rcases List.eq_nil_or_concat l with rfl | ⟨L, b, rfl⟩
  · simp at hi
  · rw [List.concat_eq_append] at hi ⊢
    unfold swapRemoveAt
    rw [List.getLastD_concat]
    by_cases hil : i < L.length
    · rw [List.set_append, if_pos hil, List.dropLast_concat,
        List.eraseIdx_append_of_lt_length hil,
        List.set_eq_take_append_cons_drop, if_pos hil,
        List.eraseIdx_eq_take_drop_succ]
      have h1 : ((List.take i L ++ List.drop (i + 1) L) ++ [b]).Perm
          (List.take i L ++ (b :: List.drop (i + 1) L)) := by
        rw [List.append_assoc]
        exact List.Perm.append_left _ (List.perm_append_singleton b _)
      exact h1.symm
    · have hieq : i = L.length := by
        simp only [List.length_append, List.length_cons, List.length_nil] at hi
        omega
      subst hieq
      rw [List.set_append, if_neg hil, Nat.sub_self]
      rw [show ([b].set 0 b) = [b] from rfl, List.dropLast_concat,
        List.eraseIdx_eq_take_drop_succ, List.take_left,
        List.drop_append 1]
      simp

theorem removeLanding_ok (l : List String) (x : String) (h : l.Nodup) :
    (removeLanding l x).Nodup ∧ x ∉ removeLanding l x := by
  unfold removeLanding
  by_cases hx : x ∈ l
  · rw [if_pos hx]
    have hperm : (swapRemoveAt l (l.indexOf x)).Perm (l.erase x) := by
      have := swapRemoveAt_perm_eraseIdx l (l.indexOf x)
        (List.indexOf_lt_length.mpr hx)
      rwa [List.eraseIdx_indexOf_eq_erase] at this
    constructor
    · exact hperm.symm.nodup (h.erase x)
    · intro hc
      exact (h.not_mem_erase) (hperm.mem_iff.mp hc)
  · rw [if_neg hx]
    exact ⟨h, hx⟩

theorem mem_dedupConsec (l : List String) (a : String) :
    a ∈ dedupConsec l ↔ a ∈ l := by
  induction l using dedupConsec.induct with
  | case1 => simp [dedupConsec]
  | case2 x => simp [dedupConsec]
  | case3 b rest ih =>
      rw [show dedupConsec (b :: b :: rest) = dedupConsec (b :: rest) from by
        rw [dedupConsec, if_pos rfl]]
      rw [ih]
      simp [List.mem_cons]
  | case4 x y rest hne ih =>
      rw [show dedupConsec (x :: y :: rest) = x :: dedupConsec (y :: rest)
          from by rw [dedupConsec, if_neg hne]]
      simp only [List.mem_cons]
      rw [ih]
      simp [List.mem_cons]

theorem dedupConsec_nodup (l : List String)
    (h : l.Pairwise (fun a b => a ≤ b)) : (dedupConsec l).Nodup := by
  induction l using dedupConsec.induct with
  | case1 => simp [dedupConsec]
  | case2 x => simp [dedupConsec]
  | case3 b rest ih =>
      rw [show dedupConsec (b :: b :: rest) = dedupConsec (b :: rest) from by
        rw [dedupConsec, if_pos rfl]]
      exact ih (List.pairwise_cons.mp h).2
  | case4 x y rest hne ih =>
      rw [show dedupConsec (x :: y :: rest) = x :: dedupConsec (y :: rest)
          from by rw [dedupConsec, if_neg hne]]
      refine List.Nodup.cons ?_ (ih (List.pairwise_cons.mp h).2)
      intro hc
      rw [mem_dedupConsec] at hc
      have hxy : x ≤ y := (List.pairwise_cons.mp h).1 y (by simp)
      have hrest := (List.pairwise_cons.mp (List.pairwise_cons.mp h).2).1
      rcases List.mem_cons.mp hc with hc2 | hc2
      · exact hne hc2
      · have hyx : y ≤ x := hrest x hc2
        exact hne (le_antisymm hxy hyx)

theorem mergeSort_le_sorted (l : List String) :
    (l.mergeSort (fun a b => a ≤ b)).Pairwise (fun a b => a ≤ b) := by
  have := @List.sorted_mergeSort String
    (fun a b : String => decide (a ≤ b))
    (fun a b c hab hbc => by
      simp only [decide_eq_true_eq] at hab hbc ⊢
      exact le_trans hab hbc)
    (fun a b => by
      simp only [Bool.or_eq_true, decide_eq_true_eq]
      exact le_total a b)
    l
  exact this.imp (by simp only [decide_eq_true_eq]; exact fun h => h)

theorem sorted_dedup_remove_ok (rest : List String) (x : String) :
    (removeLanding (dedupConsec (rest.mergeSort (fun a b => a ≤ b))) x).Nodup
    ∧ x ∉ removeLanding (dedupConsec (rest.mergeSort (fun a b => a ≤ b))) x :=
  removeLanding_ok _ x (dedupConsec_nodup _ (mergeSort_le_sorted rest))

/-- C5: `Metadata::targets` returns `(default, others)` where `default`
is the declared default-target when set, otherwise the first declared
target when the `targets` list is non-empty, otherwise the host
target; and `others` contains no duplicates and never contains
`default`. -/
theorem targets_selection (HOST : String) (TARGETS : List String)
    (m : Metadata) :
    (m.buildTargets HOST TARGETS).1 =
      (match m.default_target, m.targets with
       | some d, _ => d
       | none, some [] => HOST
       | none, some (t :: _) => t
       | none, none => HOST) ∧
    (m.buildTargets HOST TARGETS).2.Nodup ∧
    (m.buildTargets HOST TARGETS).1 ∉ (m.buildTargets HOST TARGETS).2 := by
  obtain ⟨feat, af, ndf, dt, tg, ra, rda⟩ := m
  unfold Metadata.buildTargets
  cases dt with
  | some d =>
      cases tg with
      | some ts =>
          simp only [Option.toList]
          exact ⟨by trivial, (sorted_dedup_remove_ok _ d).1,
            (sorted_dedup_remove_ok _ d).2⟩
      | none =>
          simp only [Option.toList, List.isEmpty_cons, List.cons_append]
          exact ⟨by trivial, (sorted_dedup_remove_ok _ d).1,
            (sorted_dedup_remove_ok _ d).2⟩
  | none =>
      cases tg with
      | some ts =>
          cases ts with
          | nil => simp
          | cons t ts =>
              simp only [Option.toList, List.nil_append]
              exact ⟨by trivial, (sorted_dedup_remove_ok _ t).1,
                (sorted_dedup_remove_ok _ t).2⟩
      | none =>
          simp only [Option.toList, List.isEmpty_nil, if_pos, List.nil_append]
          exact ⟨by trivial, (sorted_dedup_remove_ok _ HOST).1,
            (sorted_dedup_remove_ok _ HOST).2⟩

/-! ## C7: re-build upsert idempotence -/

theorem find?_append_some {α} (p : α → Bool) (l1 l2 : List α) (x : α)
    (h : l1.find? p = some x) : (l1 ++ l2).find? p = some x := by
  rw [List.find?_append, h]
  rfl

theorem find?_map_comm {α} (l : List α) (g : α → α) (p : α → Bool)
    (hp : ∀ a, p (g a) = p a) :
    (l.map g).find? p = (l.find? p).map g := by
  induction l with
  | nil => rfl
  | cons a rest ih =>
      rw [List.map_cons]
      by_cases hpa : p a = true
      · rw [List.find?_cons_of_pos _ (by rw [hp]; exact hpa),
          List.find?_cons_of_pos _ hpa]
        rfl
      · rw [List.find?_cons_of_neg _ (by rw [hp]; simpa using hpa),
          List.find?_cons_of_neg _ (by simpa using hpa), ih]

theorem length_filter_map_comm {α} (l : List α) (g : α → α) (p : α → Bool)
    (hp : ∀ a, p (g a) = p a) :
    ((l.map g).filter p).length = (l.filter p).length := by
  rw [List.filter_map, List.length_map]
  congr 1
  apply List.filter_congr
  intro a _
  exact hp a

theorem initialize_package_spec (s : DbState) (pkg : Pkg) :
    ((initialize_package s pkg).1.crates.find?
        (fun c => c.name = pkg.name)).map (fun c => c.id)
      = some (initialize_package s pkg).2 ∧
    (initialize_package s pkg).1.releases = s.releases ∧
    (initialize_package s pkg).1.keywords = s.keywords ∧
    (initialize_package s pkg).1.keyword_rels = s.keyword_rels ∧
    (initialize_package s pkg).1.releases_seq = s.releases_seq ∧
    (initialize_package s pkg).1.keywords_seq = s.keywords_seq := by
  unfold initialize_package
  cases hf : s.crates.find? (fun c => c.name = pkg.name) with
  | some c => simp [hf]
  | none =>
      refine ⟨?_, rfl, rfl, rfl, rfl, rfl⟩
      rw [List.find?_append, hf, Option.none_or,
        List.find?_cons_of_pos _ (by simp)]
      rfl

theorem upsertRelease_insert (s : DbState) (cid : Nat) (v : String)
    (f : ReleaseFields)
    (h : s.releases.find? (fun r => r.crate_id = cid ∧ r.version = v)
      = none) :
    (upsertRelease s cid v f).1.releases = s.releases ++
      [{ id := s.releases_seq, crate_id := cid, version := v,
         fields := f }] ∧
    (upsertRelease s cid v f).2 = s.releases_seq ∧
    (upsertRelease s cid v f).1.crates = s.crates ∧
    (upsertRelease s cid v f).1.keywords = s.keywords ∧
    (upsertRelease s cid v f).1.keyword_rels = s.keyword_rels ∧
    (upsertRelease s cid v f).1.keywords_seq = s.keywords_seq := by
  unfold upsertRelease
  rw [h]
  simp

theorem upsertRelease_update (s : DbState) (cid : Nat) (v : String)
    (f : ReleaseFields) (row : ReleaseRow)
    (h : s.releases.find? (fun r => r.crate_id = cid ∧ r.version = v)
      = some row) :
    (upsertRelease s cid v f).1.releases = s.releases.map (fun r =>
      if r.crate_id = cid ∧ r.version = v then { r with fields := f }
      else r) ∧
    (upsertRelease s cid v f).2 = row.id ∧
    (upsertRelease s cid v f).1.crates = s.crates ∧
    (upsertRelease s cid v f).1.keywords = s.keywords ∧
    (upsertRelease s cid v f).1.keyword_rels = s.keyword_rels ∧
    (upsertRelease s cid v f).1.keywords_seq = s.keywords_seq := by
  unfold upsertRelease
  rw [h]
  simp

theorem addKeywordStep_state (slugify : String → String) (rid : Nat)
    (s : DbState) (kw : String) :
    (addKeywordStep slugify rid s kw).crates = s.crates ∧
    (addKeywordStep slugify rid s kw).releases = s.releases ∧
    (∃ suf, (addKeywordStep slugify rid s kw).keywords
      = s.keywords ++ suf) ∧
    (∃ suf, (addKeywordStep slugify rid s kw).keyword_rels
      = s.keyword_rels ++ suf) := by
  unfold addKeywordStep
  cases hf : s.keywords.find? (fun k => k.slug = slugify kw) with
  | some k =>
      by_cases hm : (rid, k.id) ∈ s.keyword_rels
      · exact ⟨by simp [hf, hm], by simp [hf, hm],
          ⟨[], by simp [hf, hm]⟩, ⟨[], by simp [hf, hm]⟩⟩
      · exact ⟨by simp [hf, hm], by simp [hf, hm],
          ⟨[], by simp [hf, hm]⟩, ⟨[(rid, k.id)], by simp [hf, hm]⟩⟩
  | none =>
      by_cases hm : (rid, s.keywords_seq) ∈ s.keyword_rels
      · exact ⟨by simp [hf, hm], by simp [hf, hm],
          ⟨[{ id := s.keywords_seq, name := kw, slug := slugify kw }],
           by simp [hf, hm]⟩, ⟨[], by simp [hf, hm]⟩⟩
      · exact ⟨by simp [hf, hm], by simp [hf, hm],
          ⟨[{ id := s.keywords_seq, name := kw, slug := slugify kw }],
           by simp [hf, hm]⟩, ⟨[(rid, s.keywords_seq)], by simp [hf, hm]⟩⟩

theorem foldl_addKeywordStep_state (slugify : String → String) (rid : Nat)
    (kws : List String) (s : DbState) :
    (kws.foldl (addKeywordStep slugify rid) s).crates = s.crates ∧
    (kws.foldl (addKeywordStep slugify rid) s).releases = s.releases ∧
    (∃ suf, (kws.foldl (addKeywordStep slugify rid) s).keywords
      = s.keywords ++ suf) ∧
    (∃ suf, (kws.foldl (addKeywordStep slugify rid) s).keyword_rels
      = s.keyword_rels ++ suf) := by
  induction kws generalizing s with
  | nil => exact ⟨rfl, rfl, ⟨[], by simp⟩, ⟨[], by simp⟩⟩
  | cons k rest ih =>
      rw [List.foldl_cons]
      obtain ⟨hc, hr, ⟨sk, hsk⟩, ⟨sr, hsr⟩⟩ :=
        addKeywordStep_state slugify rid s k
      obtain ⟨hc2, hr2, ⟨sk2, hsk2⟩, ⟨sr2, hsr2⟩⟩ :=
        ih (addKeywordStep slugify rid s k)
      refine ⟨hc2.trans hc, hr2.trans hr, ⟨sk ++ sk2, ?_⟩,
        ⟨sr ++ sr2, ?_⟩⟩
      · rw [hsk2, hsk, List.append_assoc]
      · rw [hsr2, hsr, List.append_assoc]

theorem kwReady_mono (slugify : String → String) (rid : Nat)
    (s s2 : DbState) (kw : String)
    (h : kwReady slugify rid s kw = true)
    (hk : ∃ suf, s2.keywords = s.keywords ++ suf)
    (hr : ∃ suf, s2.keyword_rels = s.keyword_rels ++ suf) :
    kwReady slugify rid s2 kw = true := by
  obtain ⟨sk, hsk⟩ := hk
  obtain ⟨sr, hsr⟩ := hr
  unfold kwReady at h ⊢
  cases hf : s.keywords.find? (fun k => k.slug = slugify kw) with
  | none => rw [hf] at h; cases h
  | some k =>
      rw [hf] at h
      rw [hsk, find?_append_some _ _ _ _ hf, hsr]
      simp only [decide_eq_true_eq] at h ⊢
      exact List.mem_append_left _ h

theorem addKeywordStep_ready (slugify : String → String) (rid : Nat)
    (s : DbState) (kw : String) :
    kwReady slugify rid (addKeywordStep slugify rid s kw) kw = true := by
  unfold addKeywordStep kwReady
  cases hf : s.keywords.find? (fun k => k.slug = slugify kw) with
  | some k =>
      by_cases hm : (rid, k.id) ∈ s.keyword_rels
      · simp [hf, hm]
      · simp [hf, hm]
  | none =>
      by_cases hm : (rid, s.keywords_seq) ∈ s.keyword_rels
      · simp [hf, hm, List.find?_append]
      · simp [hf, hm, List.find?_append]

theorem addKeywordStep_id (slugify : String → String) (rid : Nat)
    (s : DbState) (kw : String)
    (h : kwReady slugify rid s kw = true) :
    addKeywordStep slugify rid s kw = s := by
  unfold kwReady at h
  unfold addKeywordStep
  cases hf : s.keywords.find? (fun k => k.slug = slugify kw) with
  | none => rw [hf] at h; cases h
  | some k =>
      rw [hf] at h
      simp only [decide_eq_true_eq] at h
      simp [hf, h]

theorem foldl_addKeywordStep_ready (slugify : String → String) (rid : Nat)
    (kws : List String) (s : DbState) (kw : String) (hkw : kw ∈ kws) :
    kwReady slugify rid (kws.foldl (addKeywordStep slugify rid) s) kw
      = true := by
  induction kws generalizing s with
  | nil => cases hkw
  | cons k rest ih =>
      rw [List.foldl_cons]
      rcases List.mem_cons.mp hkw with rfl | hkw2
      · obtain ⟨-, -, hks, hrs⟩ :=
          foldl_addKeywordStep_state slugify rid rest
            (addKeywordStep slugify rid s kw)
        exact kwReady_mono slugify rid _ _ kw
          (addKeywordStep_ready slugify rid s kw) hks hrs
      · exact ih (addKeywordStep slugify rid s k) hkw2

theorem foldl_addKeywordStep_id (slugify : String → String) (rid : Nat)
    (kws : List String) (s : DbState)
    (h : ∀ kw ∈ kws, kwReady slugify rid s kw = true) :
    kws.foldl (addKeywordStep slugify rid) s = s := by
  induction kws with
  | nil => rfl
  | cons k rest ih =>
      rw [List.foldl_cons, addKeywordStep_id slugify rid s k (h k (by simp))]
      exact ih (fun kw hkw => h kw (List.mem_cons_of_mem _ hkw))

theorem updateCrateVersions_state (s : DbState) (cid : Nat) (v n : String) :
    (updateCrateVersions s cid v).releases = s.releases ∧
    (updateCrateVersions s cid v).keywords = s.keywords ∧
    (updateCrateVersions s cid v).keyword_rels = s.keyword_rels ∧
    ((updateCrateVersions s cid v).crates.find?
        (fun c => c.name = n)).map (fun c => c.id)
      = (s.crates.find? (fun c => c.name = n)).map (fun c => c.id) := by
  refine ⟨rfl, rfl, rfl, ?_⟩
  unfold updateCrateVersions
  rw [find?_map_comm _ _ _ (fun c => by by_cases hc : c.id = cid <;>
    simp [hc])]
  cases s.crates.find? (fun c => c.name = n) with
  | none => rfl
  | some c => by_cases hc : c.id = cid <;> simp [hc]

theorem releaseUpd_id (cid : Nat) (v : String) (f : ReleaseFields)
    (r : ReleaseRow) :
    (if r.crate_id = cid ∧ r.version = v then { r with fields := f }
     else r).id = r.id := by
  by_cases hc : r.crate_id = cid ∧ r.version = v <;> simp [hc]

theorem releaseUpd_pred (cid : Nat) (v : String) (f : ReleaseFields)
    (r : ReleaseRow) :
    (decide ((if r.crate_id = cid ∧ r.version = v then { r with fields := f }
      else r).crate_id = cid ∧
      (if r.crate_id = cid ∧ r.version = v then { r with fields := f }
       else r).version = v))
    = decide (r.crate_id = cid ∧ r.version = v) := by
  by_cases hc : r.crate_id = cid ∧ r.version = v <;> simp [hc]

theorem upsertDone_intro (slugify : String → String) (s : DbState)
    (pkg : Pkg) (c : CrateRow) (row : ReleaseRow)
    (hc : s.crates.find? (fun c => c.name = pkg.name) = some c)
    (hr : s.releases.find?
      (fun r => r.crate_id = c.id ∧ r.version = pkg.version) = some row)
    (hcount : countReleases s c.id pkg.version = 1)
    (hall : ∀ kw ∈ pkg.keywords, kwReady slugify row.id s kw = true) :
    upsertDone slugify s pkg = true := by
  simp only [upsertDone, hc, hr, hcount, Bool.and_eq_true,
    decide_eq_true_eq, List.all_eq_true]
  exact ⟨trivial, hall⟩

theorem upsertDone_elim (slugify : String → String) (s : DbState)
    (pkg : Pkg) (h : upsertDone slugify s pkg = true) :
    ∃ c row, s.crates.find? (fun c => c.name = pkg.name) = some c ∧
      s.releases.find?
        (fun r => r.crate_id = c.id ∧ r.version = pkg.version) = some row ∧
      countReleases s c.id pkg.version = 1 ∧
      ∀ kw ∈ pkg.keywords, kwReady slugify row.id s kw = true := by
  unfold upsertDone at h
  split at h
  next => cases h
  next c hc =>
    split at h
    next => cases h
    next row hr =>
      simp only [Bool.and_eq_true, decide_eq_true_eq,
        List.all_eq_true] at h
      exact ⟨c, row, hc, hr, h.1, h.2⟩

/-- C7: re-running `add_package_into_database` for the same
`(name, version)` is an upsert.  The first run (from a state with no
release row for the key) establishes `upsertDone`: the crate row, a
single releases row, the keyword rows and their relations; every later
run from a state satisfying `upsertDone` preserves it while keeping
the same list of release-row ids (the row is updated in place, not
re-inserted) and leaving `keyword_rels` (and `keywords`) unchanged —
no duplicated relation rows. -/
theorem add_package_upsert_idempotent (slugify : String → String)
    (s0 : DbState) (pkg : Pkg) (f1 : ReleaseFields)
    (h0 : ∀ r ∈ s0.releases,
      ¬ (r.crate_id = (initialize_package s0 pkg).2 ∧
         r.version = pkg.version)) :
    upsertDone slugify (add_package slugify s0 pkg f1).1 pkg = true ∧
    countReleases (add_package slugify s0 pkg f1).1
      (initialize_package s0 pkg).2 pkg.version = 1 ∧
    (∀ t f, upsertDone slugify t pkg = true →
      upsertDone slugify (add_package slugify t pkg f).1 pkg = true ∧
      (add_package slugify t pkg f).1.releases.map (fun r => r.id)
        = t.releases.map (fun r => r.id) ∧
      (add_package slugify t pkg f).1.keyword_rels = t.keyword_rels ∧
      (add_package slugify t pkg f).1.keywords = t.keywords) := by
  refine ⟨?_, ?_, ?_⟩
  · -- upsertDone after the first run
    obtain ⟨hcf, hrel, hkws, hkr, hrseq, hkseq⟩ := initialize_package_spec s0 pkg
    have hnone : (initialize_package s0 pkg).1.releases.find?
        (fun r => r.crate_id = (initialize_package s0 pkg).2 ∧
          r.version = pkg.version) = none := by
      rw [hrel, List.find?_eq_none]
      intro r hr
      simpa using h0 r hr
    obtain ⟨hup_rel, hup_rid, hup_crates, hup_kws, hup_krels, -⟩ :=
      upsertRelease_insert (initialize_package s0 pkg).1
        (initialize_package s0 pkg).2 pkg.version f1 hnone
    have hadd : (add_package slugify s0 pkg f1).1 =
        updateCrateVersions (add_keywords slugify
          (upsertRelease (initialize_package s0 pkg).1
            (initialize_package s0 pkg).2 pkg.version f1).1 pkg
          (upsertRelease (initialize_package s0 pkg).1
            (initialize_package s0 pkg).2 pkg.version f1).2)
          (initialize_package s0 pkg).2 pkg.version := rfl
    obtain ⟨hfc, hfr, hfk, hfkr⟩ := foldl_addKeywordStep_state slugify
      (upsertRelease (initialize_package s0 pkg).1
        (initialize_package s0 pkg).2 pkg.version f1).2 pkg.keywords
      (upsertRelease (initialize_package s0 pkg).1
        (initialize_package s0 pkg).2 pkg.version f1).1
    obtain ⟨huc_rel, huc_kws, huc_krels, huc_find⟩ :=
      updateCrateVersions_state (add_keywords slugify
        (upsertRelease (initialize_package s0 pkg).1
          (initialize_package s0 pkg).2 pkg.version f1).1 pkg
        (upsertRelease (initialize_package s0 pkg).1
          (initialize_package s0 pkg).2 pkg.version f1).2)
        (initialize_package s0 pkg).2 pkg.version pkg.name
    rw [hadd]
    have hfind4 : ((updateCrateVersions (add_keywords slugify
        (upsertRelease (initialize_package s0 pkg).1
          (initialize_package s0 pkg).2 pkg.version f1).1 pkg
        (upsertRelease (initialize_package s0 pkg).1
          (initialize_package s0 pkg).2 pkg.version f1).2)
        (initialize_package s0 pkg).2 pkg.version).crates.find?
          (fun c => c.name = pkg.name)).map (fun c => c.id)
        = some (initialize_package s0 pkg).2 := by
      rw [huc_find]
      unfold add_keywords
      rw [hfc, hup_crates]
      exact hcf
    cases hfind : (updateCrateVersions (add_keywords slugify
        (upsertRelease (initialize_package s0 pkg).1
          (initialize_package s0 pkg).2 pkg.version f1).1 pkg
        (upsertRelease (initialize_package s0 pkg).1
          (initialize_package s0 pkg).2 pkg.version f1).2)
        (initialize_package s0 pkg).2 pkg.version).crates.find?
          (fun c => c.name = pkg.name) with
    | none => rw [hfind] at hfind4; cases hfind4
    | some c4 =>
        rw [hfind] at hfind4
        simp at hfind4
        have hrel4 : (updateCrateVersions (add_keywords slugify
            (upsertRelease (initialize_package s0 pkg).1
              (initialize_package s0 pkg).2 pkg.version f1).1 pkg
            (upsertRelease (initialize_package s0 pkg).1
              (initialize_package s0 pkg).2 pkg.version f1).2)
            (initialize_package s0 pkg).2 pkg.version).releases
          = s0.releases ++
            [{ id := ((initialize_package s0 pkg).1).releases_seq,
                crate_id := (initialize_package s0 pkg).2,
                version := pkg.version, fields := f1 }] := by
          rw [huc_rel]
          unfold add_keywords
          rw [hfr, hup_rel, hrel]
        have hfindrel : (updateCrateVersions (add_keywords slugify
            (upsertRelease (initialize_package s0 pkg).1
              (initialize_package s0 pkg).2 pkg.version f1).1 pkg
            (upsertRelease (initialize_package s0 pkg).1
              (initialize_package s0 pkg).2 pkg.version f1).2)
            (initialize_package s0 pkg).2 pkg.version).releases.find?
            (fun r => r.crate_id = c4.id ∧ r.version = pkg.version)
          = some { id := ((initialize_package s0 pkg).1).releases_seq,
                   crate_id := (initialize_package s0 pkg).2,
                   version := pkg.version, fields := f1 } := by
          rw [hrel4, hfind4, List.find?_append, List.find?_eq_none.mpr
            (fun r hr => by simpa using h0 r hr), Option.none_or,
            List.find?_cons_of_pos _ (by simp)]
        refine upsertDone_intro slugify _ pkg c4 _ hfind hfindrel ?_ ?_
        · unfold countReleases
          rw [hrel4, hfind4, List.filter_append, List.filter_eq_nil.mpr
            (fun r hr => by simpa using h0 r hr)]
          simp
        · intro kw hkw
          have hready := foldl_addKeywordStep_ready slugify
            (upsertRelease (initialize_package s0 pkg).1
              (initialize_package s0 pkg).2 pkg.version f1).2 pkg.keywords
            (upsertRelease (initialize_package s0 pkg).1
              (initialize_package s0 pkg).2 pkg.version f1).1 kw hkw
          rw [show ({ id := ((initialize_package s0 pkg).1).releases_seq,
                      crate_id := (initialize_package s0 pkg).2,
                      version := pkg.version,
                      fields := f1 } : ReleaseRow).id
              = (upsertRelease (initialize_package s0 pkg).1
                  (initialize_package s0 pkg).2 pkg.version f1).2 from
            hup_rid.symm]
          refine kwReady_mono slugify _ _ _ kw hready ⟨[], ?_⟩ ⟨[], ?_⟩
          · rw [huc_kws]
            unfold add_keywords
            simp
          · rw [huc_krels]
            unfold add_keywords
            simp
  · -- exactly one row for (cid, version) after the first run
    obtain ⟨hcf, hrel, hkws, hkr, hrseq, hkseq⟩ := initialize_package_spec s0 pkg
    have hnone : (initialize_package s0 pkg).1.releases.find?
        (fun r => r.crate_id = (initialize_package s0 pkg).2 ∧
          r.version = pkg.version) = none := by
      rw [hrel, List.find?_eq_none]
      intro r hr
      simpa using h0 r hr
    obtain ⟨hup_rel, -, -, -, -, -⟩ :=
      upsertRelease_insert (initialize_package s0 pkg).1
        (initialize_package s0 pkg).2 pkg.version f1 hnone
    obtain ⟨-, hfr, -, -⟩ := foldl_addKeywordStep_state slugify
      (upsertRelease (initialize_package s0 pkg).1
        (initialize_package s0 pkg).2 pkg.version f1).2 pkg.keywords
      (upsertRelease (initialize_package s0 pkg).1
        (initialize_package s0 pkg).2 pkg.version f1).1
    unfold countReleases
    have hadd : (add_package slugify s0 pkg f1).1 =
        updateCrateVersions (add_keywords slugify
          (upsertRelease (initialize_package s0 pkg).1
            (initialize_package s0 pkg).2 pkg.version f1).1 pkg
          (upsertRelease (initialize_package s0 pkg).1
            (initialize_package s0 pkg).2 pkg.version f1).2)
          (initialize_package s0 pkg).2 pkg.version := rfl
    rw [hadd]
    obtain ⟨huc_rel, -, -, -⟩ :=
      updateCrateVersions_state (add_keywords slugify
        (upsertRelease (initialize_package s0 pkg).1
          (initialize_package s0 pkg).2 pkg.version f1).1 pkg
        (upsertRelease (initialize_package s0 pkg).1
          (initialize_package s0 pkg).2 pkg.version f1).2)
        (initialize_package s0 pkg).2 pkg.version pkg.name
    rw [huc_rel]
    unfold add_keywords
    rw [hfr, hup_rel, hrel, List.filter_append, List.filter_eq_nil.mpr
      (fun r hr => by simpa using h0 r hr)]
    simp
  · -- preservation on every later run
    intro t f ht
    obtain ⟨c, row, hcf, hrf, hcount, hall⟩ := upsertDone_elim slugify t pkg ht
    have hinit : initialize_package t pkg = (t, c.id) := by
      unfold initialize_package
      rw [hcf]
    obtain ⟨hup_rel, hup_rid, hup_crates, hup_kws, hup_krels, -⟩ :=
      upsertRelease_update t c.id pkg.version f row hrf
    have hready : ∀ kw ∈ pkg.keywords,
        kwReady slugify (upsertRelease t c.id pkg.version f).2
          (upsertRelease t c.id pkg.version f).1 kw = true := by
      intro kw hkw
      rw [hup_rid]
      exact kwReady_mono slugify row.id t _ kw (hall kw hkw)
        ⟨[], by rw [hup_kws]; simp⟩ ⟨[], by rw [hup_krels]; simp⟩
    have hid : add_keywords slugify
        (upsertRelease t c.id pkg.version f).1 pkg
        (upsertRelease t c.id pkg.version f).2
        = (upsertRelease t c.id pkg.version f).1 :=
      foldl_addKeywordStep_id slugify _ pkg.keywords _ hready
    have hadd : (add_package slugify t pkg f).1 =
        updateCrateVersions (upsertRelease t c.id pkg.version f).1
          c.id pkg.version := by
      unfold add_package
      rw [hinit]
      show updateCrateVersions (add_keywords slugify
          (upsertRelease t c.id pkg.version f).1 pkg
          (upsertRelease t c.id pkg.version f).2) c.id pkg.version
        = updateCrateVersions (upsertRelease t c.id pkg.version f).1
          c.id pkg.version
      rw [hid]
    obtain ⟨huc_rel, huc_kws, huc_krels, huc_find⟩ :=
      updateCrateVersions_state
        (upsertRelease t c.id pkg.version f).1 c.id pkg.version pkg.name
    have hpredp : ∀ r : ReleaseRow,
        (fun r : ReleaseRow => decide (r.crate_id = c.id ∧
          r.version = pkg.version))
        ((fun r => if r.crate_id = c.id ∧ r.version = pkg.version
          then { r with fields := f } else r) r)
        = (fun r : ReleaseRow => decide (r.crate_id = c.id ∧
          r.version = pkg.version)) r := by
      intro r
      exact releaseUpd_pred c.id pkg.version f r
    refine ⟨?_, ?_, ?_, ?_⟩
    · -- upsertDone preserved
      rw [hadd]
      have hfind4 : ((updateCrateVersions
          (upsertRelease t c.id pkg.version f).1 c.id
          pkg.version).crates.find?
          (fun cc => cc.name = pkg.name)).map (fun cc => cc.id)
          = some c.id := by
        rw [huc_find, hup_crates, hcf]
        rfl
      cases hfind : (updateCrateVersions
          (upsertRelease t c.id pkg.version f).1 c.id
          pkg.version).crates.find? (fun cc => cc.name = pkg.name) with
      | none => rw [hfind] at hfind4; cases hfind4
      | some c4 =>
          rw [hfind] at hfind4
          simp at hfind4
          have hfrel : (updateCrateVersions
              (upsertRelease t c.id pkg.version f).1 c.id
              pkg.version).releases.find?
              (fun r => r.crate_id = c4.id ∧ r.version = pkg.version)
            = some (if row.crate_id = c.id ∧ row.version = pkg.version
              then { row with fields := f } else row) := by
            rw [huc_rel, hup_rel, hfind4,
              find?_map_comm _ _ _ hpredp, hrf]
            rfl
          refine upsertDone_intro slugify _ pkg c4 _ hfind hfrel ?_ ?_
          · unfold countReleases
            rw [huc_rel, hup_rel, hfind4,
              length_filter_map_comm _ _ _ hpredp]
            exact hcount
          · intro kw hkw
            have h1 := hall kw hkw
            rw [releaseUpd_id c.id pkg.version f row]
            exact kwReady_mono slugify row.id t _ kw h1
              ⟨[], by rw [huc_kws, hup_kws]; simp⟩
              ⟨[], by rw [huc_krels, hup_krels]; simp⟩
    · -- release-row ids unchanged
      rw [hadd, huc_rel, hup_rel, List.map_map]
      congr 1
      funext r
      exact releaseUpd_id c.id pkg.version f r
    · rw [hadd, huc_krels, hup_krels]
    · rw [hadd, huc_kws, hup_kws]

/-- C7 (witness). -/
theorem add_package_upsert_idempotent_witness :
    upsertDone (fun s => s) (add_package (fun s => s)
      (add_package (fun s => s) exDb exPkg exFields).1 exPkg exFields2).1
      exPkg = true ∧
    countReleases (add_package (fun s => s)
      (add_package (fun s => s) exDb exPkg exFields).1 exPkg exFields2).1
      1 "1.4.2" = 1 ∧
    (add_package (fun s => s)
        (add_package (fun s => s) exDb exPkg exFields).1 exPkg
        exFields2).1.keyword_rels
      = (add_package (fun s => s) exDb exPkg exFields).1.keyword_rels := by
  have h := add_package_upsert_idempotent (fun s => s) exDb exPkg exFields
    (by intro r hr; cases hr)
  have h2 := h.2.2 (add_package (fun s => s) exDb exPkg exFields).1
    exFields2 h.1
  refine ⟨h2.1, ?_, h2.2.2.1⟩
  decide

/-! ## C1: archive round-trip -/

theorem algOfTag_algTag (a : CompressionAlgorithm) :
    algOfTag (algTag a) = some a := by
  cases a <;> rfl

theorem decodeString_encodeString (s : String) (t : List Nat) :
    decodeString (encodeString s ++ t) = some (s, t) := by
  unfold encodeString
  rw [List.cons_append]
  have h1 : s.length = (s.data.map Char.toNat).length := by
    rw [List.length_map]
    rfl
  simp only [decodeString]
  rw [if_pos (by rw [h1]; simp)]
  rw [h1, List.take_left, List.drop_left]
  have hmapmap : (s.data.map Char.toNat).map Char.ofNat = s.data := by
    rw [List.map_map]
    conv_rhs => rw [← List.map_id s.data]
    apply List.map_congr_left
    intro a _
    exact Char.ofNat_toNat a
  rw [hmapmap]

theorem decodeEntry_encodeEntry (e : IndexEntry) (t : List Nat) :
    decodeEntry (encodeEntry e ++ t) = some (e, t) := by
  unfold decodeEntry encodeEntry
  rw [List.append_assoc, List.cons_append, List.cons_append,
    List.cons_append]
  simp [decodeString_encodeString, algOfTag_algTag]

theorem decodeEntries_encode (es : List IndexEntry) :
    decodeEntries es.length ((es.map encodeEntry).flatten) = some es := by
  induction es with
  | nil => rfl
  | cons e rest ih =>
      rw [List.map_cons, List.flatten_cons]
      show decodeEntries (rest.length + 1)
        (encodeEntry e ++ (rest.map encodeEntry).flatten) = _
      simp only [decodeEntries]
      simp [decodeEntry_encodeEntry, ih]

theorem indexLoad_encodeIndex (es : List IndexEntry) :
    indexLoad (encodeIndex es) = .ok es := by
  unfold indexLoad encodeIndex
  simp [decodeEntries_encode]

theorem sliceRange_append (xs ys : List Nat) (r : FileRange)
    (h : r.start + r.len ≤ xs.length) :
    sliceRange (xs ++ ys) r = sliceRange xs r := by
  unfold sliceRange
  rw [List.drop_append_of_le_length (by omega),
    List.take_append_of_le_length (by simp; omega)]

theorem sliceRange_last (xs c : List Nat) (hc : c ≠ []) :
    sliceRange (xs ++ c)
      { start := xs.length, stop := xs.length + c.length - 1 } = c := by
  unfold sliceRange FileRange.len
  have h1 : 1 ≤ c.length := List.length_pos.mpr hc
  have hlen : xs.length + c.length - 1 - xs.length + 1 = c.length := by
    omega
  rw [List.drop_left]
  show List.take (xs.length + c.length - 1 - xs.length + 1) c = c
  rw [hlen, List.take_length]

theorem entry_range_len (e : IndexEntry) (h : 1 ≤ e.size) :
    (e.range).len = e.size := by
  simp only [IndexEntry.range, FileRange.len]
  omega

theorem pack_preserves (e : IndexEntry) (c : List Nat) (hsz : 1 ≤ e.size) :
    ∀ (files : List (String × List Nat))
      (acc : List Nat × List IndexEntry),
      e ∈ acc.2 → e.offset + e.size ≤ acc.1.length →
      sliceRange acc.1 e.range = c →
      e ∈ (files.foldl packStep acc).2 ∧
      e.offset + e.size ≤ (files.foldl packStep acc).1.length ∧
      sliceRange (files.foldl packStep acc).1 e.range = c := by
  intro files
  induction files with
  | nil => intro acc he hbound hslice; exact ⟨he, hbound, hslice⟩
  | cons g rest ih =>
      intro acc he hbound hslice
      rw [List.foldl_cons]
      apply ih
      · exact List.mem_append_left _ he
      · show e.offset + e.size ≤ (acc.1 ++ compress .Bzip2 g.2).length
        rw [List.length_append]
        omega
      · show sliceRange (acc.1 ++ compress .Bzip2 g.2) e.range = c
        rw [sliceRange_append]
        · exact hslice
        · show (e.range).start + (e.range).len ≤ acc.1.length
          rw [entry_range_len e hsz]
          exact hbound

theorem pack_mem (f : String × List Nat) :
    ∀ (files : List (String × List Nat))
      (acc : List Nat × List IndexEntry), f ∈ files →
      ∃ e, e ∈ (files.foldl packStep acc).2 ∧ e.path = f.1 ∧
        e.alg = .Bzip2 ∧ 1 ≤ e.size ∧
        e.offset + e.size ≤ (files.foldl packStep acc).1.length ∧
        sliceRange (files.foldl packStep acc).1 e.range
          = compress .Bzip2 f.2 := by
  intro files
  induction files with
  | nil => intro acc hf; cases hf
  | cons g rest ih =>
      intro acc hf
      rw [List.foldl_cons]
      rcases List.mem_cons.mp hf with rfl | hf2
      · have hcomp : 1 ≤ (compress .Bzip2 f.2).length := by
          unfold compress
          simp
        have hmem : (⟨f.1, acc.1.length, (compress .Bzip2 f.2).length,
              .Bzip2, detect_mime f.1⟩ : IndexEntry)
            ∈ (packStep acc f).2 := by
          unfold packStep
          exact List.mem_append_right _ (by simp)
        have hbound : acc.1.length + (compress .Bzip2 f.2).length
            ≤ (packStep acc f).1.length := by
          unfold packStep
          simp
        have hslice : sliceRange (packStep acc f).1
            ((⟨f.1, acc.1.length, (compress .Bzip2 f.2).length,
              .Bzip2, detect_mime f.1⟩ : IndexEntry)).range
            = compress .Bzip2 f.2 := by
          show sliceRange (acc.1 ++ compress .Bzip2 f.2) _ = _
          unfold IndexEntry.range
          exact sliceRange_last acc.1 (compress .Bzip2 f.2)
            (by unfold compress; simp)
        obtain ⟨h1, h2, h3⟩ := pack_preserves _ (compress .Bzip2 f.2) hcomp
          rest (packStep acc f) hmem hbound hslice
        exact ⟨_, h1, rfl, rfl, hcomp, h2, h3⟩
      · exact ih (packStep acc g) hf2

theorem pack_paths : ∀ (files : List (String × List Nat))
    (acc : List Nat × List IndexEntry),
    ((files.foldl packStep acc).2).map (fun e => e.path)
      = acc.2.map (fun e => e.path) ++ files.map (fun f => f.1) := by
  intro files
  induction files with
  | nil => intro acc; simp
  | cons g rest ih =>
      intro acc
      rw [List.foldl_cons, ih]
      unfold packStep
      simp

/-- C1: archive round-trip.  After `store_all_in_archive(P, D)`
succeeds, `get_from_archive(P, f, max)` with a sufficiently large
`max` (at least the file's compressed stream, one byte above its
content in this codec model) returns a `Blob` whose content equals the
original bytes of `f` in `D` and whose path is `{P}/{f}`. -/
theorem store_all_in_archive_roundtrip (s : StorageState) (P : String)
    (files : List (String × List Nat))
    (hnd : (files.map Prod.fst).Nodup)
    (f : String × List Nat) (hf : f ∈ files)
    (max_size : Nat) (hmax : f.2.length + 1 ≤ max_size) :
    (Storage.get_from_archive
      (Storage.store_all_in_archive s P files).1 P f.1 max_size).2
    = .ok { path := P ++ "/" ++ f.1, mime := detect_mime f.1,
            content := f.2, compression := none } := by
  obtain ⟨e, hemem, hepath, healg, hesz1, hebound, heslice⟩ :=
    pack_mem f files ([], []) hf
  have hpaths : ((files.foldl packStep
      (([], []) : List Nat × List IndexEntry)).2).map (fun e => e.path)
      = files.map (fun g => g.1) := by
    rw [pack_paths]
    simp
  have hndE : (((files.foldl packStep
      (([], []) : List Nat × List IndexEntry)).2).map
        (fun e => e.path)).Nodup := by
    rw [hpaths]
    exact hnd
  have hfind : ((files.foldl packStep
      (([], []) : List Nat × List IndexEntry)).2).find?
        (fun e2 => e2.path = f.1) = some e := by
    cases hfe : ((files.foldl packStep
        (([], []) : List Nat × List IndexEntry)).2).find?
          (fun e2 => e2.path = f.1) with
    | none =>
        rw [List.find?_eq_none] at hfe
        exact absurd hepath (by simpa using hfe e hemem)
    | some e2 =>
        have he2mem := List.mem_of_find?_eq_some hfe
        have he2path : e2.path = f.1 := by simpa using List.find?_some hfe
        have heq : e2 = e := List.inj_on_of_nodup_map hndE he2mem hemem
          (by rw [he2path, hepath])
        rw [heq]
  have hff : findFile (files.foldl packStep
      (([], []) : List Nat × List IndexEntry)).2 f.1 = .ok e := by
    unfold findFile
    rw [hfind]
  have hPne : ¬ P = P ++ ".index" := by
    intro hc
    have hlen := congrArg String.length hc
    rw [String.length_append] at hlen
    have h6 : (".index" : String).length = 6 := rfl
    omega
  have hfc : ((Storage.store_all_in_archive s P files).1.cache).find?
      (fun pc => pc.1 = P ++ ".index")
      = some (P ++ ".index", encodeIndex (files.foldl packStep
          (([], []) : List Nat × List IndexEntry)).2) := by
    rw [show (Storage.store_all_in_archive s P files).1.cache =
        (P ++ ".index", encodeIndex (files.foldl packStep
          (([], []) : List Nat × List IndexEntry)).2) ::
          s.cache.filter (fun pc => ¬ pc.1 = P ++ ".index") from rfl]
    exact List.find?_cons_of_pos _ (by simp)
  have hidx : Storage.get_index_for
      (Storage.store_all_in_archive s P files).1 P
      = ((Storage.store_all_in_archive s P files).1,
         .ok (files.foldl packStep
           (([], []) : List Nat × List IndexEntry)).2) := by
    simp only [Storage.get_index_for, hfc, indexLoad_encodeIndex]
  have h2 : (insertBlob s.blobs
      { path := P, mime := "application/zip",
        content := (files.foldl packStep
          (([], []) : List Nat × List IndexEntry)).1,
        compression := none }).find? (fun pb => pb.1 = P)
      = some (P,
          { path := P, mime := "application/zip",
            content := (files.foldl packStep
              (([], []) : List Nat × List IndexEntry)).1,
            compression := none }) :=
    find_insertBlob_self s.blobs
      { path := P, mime := "application/zip",
        content := (files.foldl packStep
          (([], []) : List Nat × List IndexEntry)).1,
        compression := none }
  have hzipfind : StorageState.find
      (Storage.store_all_in_archive s P files).1 P
      = some { path := P, mime := "application/zip",
               content := (files.foldl packStep
                 (([], []) : List Nat × List IndexEntry)).1,
               compression := none } := by
    unfold StorageState.find
    rw [show (Storage.store_all_in_archive s P files).1.blobs =
        insertBlob (insertBlob s.blobs
          { path := P, mime := "application/zip",
            content := (files.foldl packStep
              (([], []) : List Nat × List IndexEntry)).1,
            compression := none })
          { path := P ++ ".index", mime := "application/octet-stream",
            content := compress CompressionAlgorithm.default
              (encodeIndex (files.foldl packStep
                (([], []) : List Nat × List IndexEntry)).2),
            compression := some CompressionAlgorithm.default } from rfl]
    rw [find_insertBlob_other _ _ P hPne]
    rw [h2]
    rfl
  have hcomplen : (compress .Bzip2 f.2).length = f.2.length + 1 := by
    unfold compress
    simp
  have hbg : backendGet (Storage.store_all_in_archive s P files).1 P
      max_size (some e.range)
      = .ok { path := P, mime := "application/zip",
              content := compress .Bzip2 f.2, compression := none } := by
    simp only [backendGet, hzipfind]
    rw [heslice]
    rw [if_neg (by rw [hcomplen]; omega)]
  have hdec : decompress (compress .Bzip2 f.2) .Bzip2 max_size
      = .ok f.2 :=
    decompress_compress .Bzip2 f.2 max_size (by omega)
  have hrange : Storage.get_range
      (Storage.store_all_in_archive s P files).1 P max_size e.range
      (some e.alg)
      = .ok { path := P, mime := "application/zip", content := f.2,
              compression := none } := by
    rw [healg]
    simp [Storage.get_range, hbg, Bind.bind, Except.bind, hdec, pure,
      Except.pure]
  simp only [Storage.get_from_archive, hidx, hff, hrange]

/-- C1 (witness). -/
theorem store_all_in_archive_roundtrip_witness :
    (Storage.get_from_archive
      (Storage.store_all_in_archive exStorage "folder/test.zip" exFiles).1
      "folder/test.zip" "src/main.rs" 10).2
    = .ok { path := "folder/test.zip/src/main.rs",
            mime := detect_mime "src/main.rs", content := [1, 2, 3],
            compression := none } :=
  store_all_in_archive_roundtrip exStorage "folder/test.zip" exFiles
    (by decide) ("src/main.rs", [1, 2, 3]) (by decide) 10 (by decide)

end DocsRs
